import Mathlib

/-!
Verification of the mcp-md-index ingestion-and-retrieval engine.

This file shallowly embeds the Go source of the repository
(internal/text, internal/parser, internal/cache, internal/search,
internal/indexer, internal/embedding) into Lean 4 and proves or refutes
the frozen specification claims about it.

Conventions of the embedding:
- Go strings are Lean `String`s (lists of Unicode scalar values).  Go's
  `len(s)` is the UTF-8 byte length, embedded as `byteLen`; Go's
  `[]rune(s)` is `s.data`.
- Go `float64` values are embedded as real numbers `ℝ`; `float32` vector
  components are embedded as rationals `ℚ` (cast to `ℝ` where the code
  computes with them).  Division by zero follows the Lean convention
  `x / 0 = 0`; the embedded code only branches on exact zero tests the
  way the Go code does.
- Go maps used as accumulators (`map[string]int`, `map[string]float64`)
  are embedded as association lists updated in encounter order; all map
  iterations in the source either feed commutative accumulation (sums)
  or are order-normalized here, which is noted where it happens.
- Go `sort.Slice` is documented as NOT guaranteed stable.  It is embedded
  as an arbitrary function `sortf` constrained by `SortOK` (the output is
  a permutation of the input, sorted descending by score) — exactly the
  contract Go documents, nothing more.
-/

namespace MdIndex

/-! ## Character classes and Go string helpers -/

/-- Backtick character (code 96), written via `Char.ofNat` so fence
matching can pattern on it. -/
def btick : Char := Char.ofNat 96

/-- Apostrophe character (code 39), used by the HTML entity replacer. -/
def apos : Char := Char.ofNat 39

/-- Word characters of the Go regexes `\w` and `[a-zA-Z0-9_]`. -/
def isWordChar (c : Char) : Bool :=
  (Char.ofNat 97 ≤ c && c ≤ Char.ofNat 122) ||
  (Char.ofNat 65 ≤ c && c ≤ Char.ofNat 90) ||
  (Char.ofNat 48 ≤ c && c ≤ Char.ofNat 57) || c == Char.ofNat 95

/-- Whitespace class `\s` of Go regexp (RE2): `[\t\n\f\r ]`. -/
def isSpaceRE (c : Char) : Bool :=
  c == ' ' || c == Char.ofNat 9 || c == Char.ofNat 10 ||
  c == Char.ofNat 12 || c == Char.ofNat 13

/-- ASCII part of `unicode.IsSpace`, used by `strings.TrimSpace`:
tab, newline, vertical tab, form feed, carriage return, space. -/
def goIsSpace (c : Char) : Bool :=
  c == ' ' || (Char.ofNat 9 ≤ c && c ≤ Char.ofNat 13)

/-- Character class `[a-zA-Z0-9#]` of the residual HTML-entity regex. -/
def isEntityChar (c : Char) : Bool :=
  (Char.ofNat 97 ≤ c && c ≤ Char.ofNat 122) ||
  (Char.ofNat 65 ≤ c && c ≤ Char.ofNat 90) ||
  (Char.ofNat 48 ≤ c && c ≤ Char.ofNat 57) || c == '#'

/-- Go `strings.TrimSpace` (ASCII whitespace; the sources only feed it
ASCII-space-delimited markdown). -/
def goTrimSpace (s : String) : String :=
  ⟨((s.data.dropWhile goIsSpace).reverse.dropWhile goIsSpace).reverse⟩

/-- Trim by the regex whitespace class, used for heading titles
 (`\s+`/`\s*` in the heading regex). -/
def trimRE (l : List Char) : List Char :=
  ((l.dropWhile isSpaceRE).reverse.dropWhile isSpaceRE).reverse

/-- UTF-8 encoding of one character. -/
def charUTF8 (c : Char) : List Nat :=
  let n := c.toNat
  if n < 128 then [n]
  else if n < 2048 then [192 + n / 64, 128 + n % 64]
  else if n < 65536 then [224 + n / 4096, 128 + n / 64 % 64, 128 + n % 64]
  else [240 + n / 262144, 128 + n / 4096 % 64, 128 + n / 64 % 64, 128 + n % 64]

/-- UTF-8 bytes of a string (Go `[]byte(s)`). -/
def strBytes (s : String) : List Nat := (s.data.map charUTF8).flatten

/-- UTF-8 byte length of a string: Go `len(s)`. -/
def byteLen (s : String) : Nat := (strBytes s).length

/-- Split a character list at every occurrence of a separator character
(Go `strings.Split` with a one-character separator; the result always has
one more piece than there are separators). -/
def splitCh (sep : Char) : List Char → List String
  | [] => [""]
  | c :: rest =>
      if c = sep then "" :: splitCh sep rest
      else
        match splitCh sep rest with
        | h :: t => ⟨c :: h.data⟩ :: t
        | [] => [⟨[c]⟩]

/-- Go `strings.Split(content, "\n")`. -/
def splitLines (s : String) : List String := splitCh (Char.ofNat 10) s.data

/-- Prefix test on character lists (Go `strings.HasPrefix` at rune level;
the needles used are ASCII so byte and rune prefixes agree). -/
def isPre : List Char → List Char → Bool
  | [], _ => true
  | _ :: _, [] => false
  | p :: ps, c :: cs => p == c && isPre ps cs

/-- Substring search helper over the haystack characters. -/
def subAux (pat : List Char) : List Char → Bool
  | [] => pat.isEmpty
  | c :: rest => isPre pat (c :: rest) || subAux pat rest

/-- Go `strings.Contains` (ASCII needles: byte search = rune search). -/
def containsSub (s pat : String) : Bool := subAux pat.data s.data

/-! ## internal/text: the text normalizer -/

/-- Minimum token length (`text.MinTokenLength`). -/
def MinTokenLength : Nat := 2

/-- Stopword table of `internal/text/normalize.go`, transcribed verbatim. -/
def stopwords : List String :=
  ["the", "a", "an", "and", "or", "to",
   "of", "in", "for", "with", "on", "at",
   "by", "from", "as", "into", "through",
   "is", "are", "was", "were", "be", "been",
   "have", "has", "had", "do", "does", "did",
   "will", "would", "could", "should", "may",
   "can", "must",
   "it", "its", "this", "that", "these", "those",
   "which", "what", "who", "whom",
   "example", "following", "using", "also",
   "when", "where", "how", "why",
   "see", "note", "use", "used",
   "over", "about", "above", "below",
   "field", "type", "label", "description",
   "string", "int", "bool", "float", "uint",
   "optional", "required", "repeated",
   "api", "svc", "proto",
   "top", "table", "contents", "value", "types"]

/-- Go `text.IsStopword`. -/
def IsStopword (t : String) : Bool := stopwords.contains t

/-- Scanner for the tag-removal regex `<[^>]+>` (`ReplaceAllString` with
the empty replacement).  The second argument is `none` outside a
candidate tag and `some buf` inside one, where `buf` holds the characters
seen since the opening angle bracket, most recent first.  A candidate
that never closes is emitted verbatim; since a match must start with an
opening angle bracket and the buffer contains none, no rescan is needed. -/
def stripTagsGo : List Char → Option (List Char) → List Char
  | [], none => []
  | [], some buf => '<' :: buf.reverse
  | c :: rest, none =>
      if c == '<' then stripTagsGo rest (some []) else c :: stripTagsGo rest none
  | c :: rest, some buf =>
      if c == '>' then
        if buf.isEmpty then '<' :: '>' :: stripTagsGo rest none
        else stripTagsGo rest none
      else stripTagsGo rest (some (c :: buf))

/-- Go `htmlTagRe.ReplaceAllString(text, "")`. -/
def stripTags (l : List Char) : List Char := stripTagsGo l none

/-- Go `htmlEntityReplacer.Replace`: decode the six known entities, in
argument order, scanning left to right without overlap. -/
def applyEntityReplacer : List Char → List Char
  | [] => []
  | '&' :: 'a' :: 'm' :: 'p' :: ';' :: rest => '&' :: applyEntityReplacer rest
  | '&' :: 'l' :: 't' :: ';' :: rest => '<' :: applyEntityReplacer rest
  | '&' :: 'g' :: 't' :: ';' :: rest => '>' :: applyEntityReplacer rest
  | '&' :: 'q' :: 'u' :: 'o' :: 't' :: ';' :: rest => '"' :: applyEntityReplacer rest
  | '&' :: '#' :: '3' :: '9' :: ';' :: rest => apos :: applyEntityReplacer rest
  | '&' :: 'n' :: 'b' :: 's' :: 'p' :: ';' :: rest => ' ' :: applyEntityReplacer rest
  | c :: rest => c :: applyEntityReplacer rest

/-- Scanner for the residual entity regex `&[a-zA-Z0-9#]+;`
(`ReplaceAllString` with the empty replacement).  `some buf` means we are
inside a candidate `&…` run (`buf` reversed, ampersand excluded).  Entity
characters exclude both the ampersand and the semicolon, so an abandoned
buffer cannot contain the start of another match and is emitted whole. -/
def stripEntitiesGo : List Char → Option (List Char) → List Char
  | [], none => []
  | [], some buf => '&' :: buf.reverse
  | c :: rest, none =>
      if c == '&' then stripEntitiesGo rest (some [])
      else c :: stripEntitiesGo rest none
  | c :: rest, some buf =>
      if isEntityChar c then stripEntitiesGo rest (some (c :: buf))
      else if c == ';' && !buf.isEmpty then stripEntitiesGo rest none
      else
        '&' :: buf.reverse ++
          (if c == '&' then stripEntitiesGo rest (some [])
           else c :: stripEntitiesGo rest none)

/-- Go `htmlEntityRe.ReplaceAllString(text, "")`. -/
def stripEntities (l : List Char) : List Char := stripEntitiesGo l none

/-- Go `text.StripHTML`: tags, then the entity replacer, then residual
entities. -/
def StripHTML (s : String) : String :=
  ⟨stripEntities (applyEntityReplacer (stripTags s.data))⟩

/-- Maximal runs of word characters: Go `tokenRe.FindAllString(text, -1)`.
The accumulator holds the current run reversed. -/
def tokenizeGo : List Char → List Char → List (List Char)
  | [], [] => []
  | [], acc => [acc.reverse]
  | c :: rest, acc =>
      if isWordChar c then tokenizeGo rest (c :: acc)
      else if acc.isEmpty then tokenizeGo rest []
      else acc.reverse :: tokenizeGo rest []

/-- Go `text.NormalizeTerms`: strip HTML, lowercase, tokenize, drop short
tokens and stopwords.  Tokens are ASCII word characters, so Go's byte
length equals the character count. -/
def NormalizeTerms (s : String) : List String :=
  let low := (StripHTML s).data.map Char.toLower
  (tokenizeGo low []).filterMap fun t =>
    if t.length < MinTokenLength then none
    else if IsStopword ⟨t⟩ then none
    else some ⟨t⟩

/-! ## internal/domain: data model -/

/-- Cache schema version (`domain.CacheVersion`, current value 4 in the
models.go revision that declares `CodeBlock`/`TableRow`/`HeadingPath`
used by the parser). -/
def CacheVersion : Nat := 4

/-- Default token budget (`domain.DefaultMaxTokens`). -/
def DefaultMaxTokens : Nat := 500

/-- domain.CodeBlock. -/
structure CodeBlock where
  language : String
  code : String
  line : Nat
deriving Repr, DecidableEq

/-- domain.TableRow. -/
structure TableRow where
  cells : List String
  line : Nat
deriving Repr, DecidableEq

/-- domain.Chunk.  The `embedding` field is declared in the spec's index
schema (`embedding`: optional float32 array) and assigned by the worker
pool; `float32` components are embedded as `ℚ`. -/
structure Chunk where
  chunkID : String
  docID : String
  path : String
  title : String
  headingPath : List String
  startLine : Nat
  endLine : Nat
  text : String
  terms : List String
  codeBlocks : List CodeBlock
  tableRows : List TableRow
  hasCode : Bool
  embedding : Option (List ℚ) := none
deriving Repr, DecidableEq

/-- domain.Index. -/
structure Index where
  docID : String
  path : String
  sourceURL : String := ""
  fileHash : String
  indexedAt : Nat
  chunks : List Chunk
  docFreq : List (String × Nat)
  numChunks : Nat
  version : Nat
deriving Repr, DecidableEq

/-- Lookup in an association-list embedding of `map[string]int`
(missing key reads as the zero value, as in Go). -/
def lookupNat (m : List (String × Nat)) (k : String) : Nat :=
  match m.find? (fun p => p.1 == k) with
  | some p => p.2
  | none => 0

/-- Increment a key of a `map[string]int` embedding. -/
def bumpNat (m : List (String × Nat)) (k : String) : List (String × Nat) :=
  match m with
  | [] => [(k, 1)]
  | (k₁, v) :: rest =>
      if k₁ == k then (k₁, v + 1) :: rest else (k₁, v) :: bumpNat rest k

/-- Term-frequency map of a term sequence (`tf[term]++` loops). -/
def buildTF (ts : List String) : List (String × Nat) :=
  ts.foldl bumpNat []

/-! ## SHA-256 (crypto/sha256), hex (encoding/hex) -/

/-- Truncate to 32 bits. -/
def w32 (x : Nat) : Nat := x % 4294967296

/-- 32-bit right rotation. -/
def rotr (n x : Nat) : Nat := w32 ((x >>> n) ||| (x <<< (32 - n)))

/-- SHA-256 small sigma 0. -/
def ssig0 (x : Nat) : Nat := (rotr 7 x) ^^^ (rotr 18 x) ^^^ (x >>> 3)

/-- SHA-256 small sigma 1. -/
def ssig1 (x : Nat) : Nat := (rotr 17 x) ^^^ (rotr 19 x) ^^^ (x >>> 10)

/-- SHA-256 big sigma 0. -/
def bsig0 (x : Nat) : Nat := (rotr 2 x) ^^^ (rotr 13 x) ^^^ (rotr 22 x)

/-- SHA-256 big sigma 1. -/
def bsig1 (x : Nat) : Nat := (rotr 6 x) ^^^ (rotr 11 x) ^^^ (rotr 25 x)

/-- SHA-256 round constants. -/
def shaK : List Nat :=
  [1116352408, 1899447441, 3049323471, 3921009573,
   961987163, 1508970993, 2453635748, 2870763221,
   3624381080, 310598401, 607225278, 1426881987,
   1925078388, 2162078206, 2614888103, 3248222580,
   3835390401, 4022224774, 264347078, 604807628,
   770255983, 1249150122, 1555081692, 1996064986,
   2554220882, 2821834349, 2952996808, 3210313671,
   3336571891, 3584528711, 113926993, 338241895,
   666307205, 773529912, 1294757372, 1396182291,
   1695183700, 1986661051, 2177026350, 2456956037,
   2730485921, 2820302411, 3259730800, 3345764771,
   3516065817, 3600352804, 4094571909, 275423344,
   430227734, 506948616, 659060556, 883997877,
   958139571, 1322822218, 1537002063, 1747873779,
   1955562222, 2024104815, 2227730452, 2361852424,
   2428436474, 2756734187, 3204031479, 3329325298]

/-- SHA-256 working state: eight 32-bit words. -/
structure ShaState where
  a : Nat
  b : Nat
  c : Nat
  d : Nat
  e : Nat
  f : Nat
  g : Nat
  h : Nat
deriving Repr, DecidableEq

/-- SHA-256 initial hash value. -/
def shaInit : ShaState :=
  ⟨1779033703, 3144134277, 1013904242, 2773480762,
   1359893119, 2600822924, 528734635, 1541459225⟩

/-- One SHA-256 round with key constant `k` and schedule word `w`. -/
def shaRound (s : ShaState) (k w : Nat) : ShaState :=
  let t1 := w32 (s.h + bsig1 s.e + ((s.e &&& s.f) ^^^ ((w32 (4294967295 - s.e)) &&& s.g)) + k + w)
  let t2 := w32 (bsig0 s.a + ((s.a &&& s.b) ^^^ (s.a &&& s.c) ^^^ (s.b &&& s.c)))
  ⟨w32 (t1 + t2), s.a, s.b, s.c, w32 (s.d + t1), s.e, s.f, s.g⟩

/-- Big-endian 32-bit words from bytes (16 words per 64-byte block). -/
def bytesToWords : List Nat → List Nat
  | b0 :: b1 :: b2 :: b3 :: rest =>
      (b0 * 16777216 + b1 * 65536 + b2 * 256 + b3) :: bytesToWords rest
  | _ => []

/-- Extend a 16-word schedule to 64 words (counter counts additions left). -/
def extendW : Nat → List Nat → List Nat
  | 0, ws => ws
  | n + 1, ws =>
      let i := ws.length
      let nw := w32 (ssig1 (ws.getD (i - 2) 0) + ws.getD (i - 7) 0 +
                     ssig0 (ws.getD (i - 15) 0) + ws.getD (i - 16) 0)
      extendW n (ws ++ [nw])

/-- Compress one 64-byte block into the running state. -/
def shaBlock (hs : ShaState) (block : List Nat) : ShaState :=
  let ws := extendW 48 (bytesToWords block)
  let fin := (List.zip shaK ws).foldl (fun s p => shaRound s p.1 p.2) hs
  ⟨w32 (hs.a + fin.a), w32 (hs.b + fin.b), w32 (hs.c + fin.c), w32 (hs.d + fin.d),
   w32 (hs.e + fin.e), w32 (hs.f + fin.f), w32 (hs.g + fin.g), w32 (hs.h + fin.h)⟩

/-- Fold the padded message blockwise (fuel is the byte count, enough
since each step consumes 64 bytes). -/
def shaBlocks : Nat → ShaState → List Nat → ShaState
  | 0, hs, _ => hs
  | _, hs, [] => hs
  | fuel + 1, hs, l => shaBlocks fuel (shaBlock hs (l.take 64)) (l.drop 64)

/-- Big-endian bytes of a value, fixed width. -/
def natBytesBE : Nat → Nat → List Nat
  | 0, _ => []
  | n + 1, x => x / (256 ^ n) % 256 :: natBytesBE n x

/-- SHA-256 padding: 0x80, zeros to 56 mod 64, 64-bit bit length. -/
def shaPad (msg : List Nat) : List Nat :=
  let len := msg.length
  msg ++ 128 :: List.replicate ((119 - len % 64) % 64) 0 ++ natBytesBE 8 (8 * len)

/-- Serialize the final state big-endian (32 bytes). -/
def shaStateBytes (s : ShaState) : List Nat :=
  natBytesBE 4 s.a ++ natBytesBE 4 s.b ++ natBytesBE 4 s.c ++ natBytesBE 4 s.d ++
  natBytesBE 4 s.e ++ natBytesBE 4 s.f ++ natBytesBE 4 s.g ++ natBytesBE 4 s.h

/-- SHA-256 of a byte sequence. -/
def sha256 (msg : List Nat) : List Nat :=
  let padded := shaPad msg
  shaStateBytes (shaBlocks padded.length shaInit padded)

/-- Lowercase hex digit of a nibble. -/
def hexDigit (n : Nat) : Char :=
  if n < 10 then Char.ofNat (48 + n) else Char.ofNat (87 + n)

/-- Go `hex.EncodeToString`. -/
def hexEncode : List Nat → List Char
  | [] => []
  | b :: rest => hexDigit (b / 16 % 16) :: hexDigit (b % 16) :: hexEncode rest

/-- Full SHA-256 hex digest of a string's bytes
(`OSFileReader.HashFile`, `LoadSite`'s content hash). -/
def hashHex (s : String) : String := ⟨hexEncode (sha256 (strBytes s))⟩

/-! ## internal/parser: DocID and the markdown parser -/

/-- Go `parser.DocIDForPath`: hex SHA-256 of the absolute path, first 16
hex characters.  `filepath.Abs` is host behavior and enters as the
function argument `abs`. -/
def DocIDForPath (abs : String → String) (path : String) : String :=
  ⟨(hexEncode (sha256 (strBytes (abs path)))).take 16⟩

/-- Go `indexer.docIDForURL`: hex of the first 8 SHA-256 bytes. -/
def docIDForURL (url : String) : String :=
  ⟨hexEncode ((sha256 (strBytes url)).take 8)⟩

/-- Go `filepath.Base` (slash-separated paths). -/
def filepathBase (path : String) : String :=
  if path = "" then "."
  else
    let l := (path.data.reverse.dropWhile (· == '/')).reverse
    if l.isEmpty then "/"
    else ⟨(l.reverse.takeWhile (· != '/')).reverse⟩

/-- Extension scanner over the reversed path (helper of `filepathExt`). -/
def extFromRev : List Char → List Char → Option (List Char)
  | [], _ => none
  | c :: rest, acc =>
      if c == '/' then none
      else if c == '.' then some ('.' :: acc)
      else extFromRev rest (c :: acc)

/-- Go `filepath.Ext`. -/
def filepathExt (p : String) : String :=
  match extFromRev p.data.reverse [] with
  | some l => ⟨l⟩
  | none => ""

/-- Go `strings.ToLower` (ASCII). -/
def lowerStr (s : String) : String := ⟨s.data.map Char.toLower⟩

/-- Heading regex `^(#{1,6})\s+(.+?)\s*$`.  The match requires one to six
leading hashes followed by a whitespace character and at least one more
character.  The captured title is the remainder trimmed by the regex
whitespace class; when the remainder is entirely whitespace of length at
least two, backtracking makes the lazy group capture its last character. -/
def headingMatch (line : String) : Option (Nat × String) :=
  let hashes := line.data.takeWhile (· == '#')
  let rest := line.data.dropWhile (· == '#')
  if 1 ≤ hashes.length ∧ hashes.length ≤ 6 then
    match rest with
    | c :: _ =>
        if isSpaceRE c ∧ 2 ≤ rest.length then
          let title := trimRE rest
          if title.isEmpty then some (hashes.length, ⟨[rest.getLastD ' ']⟩)
          else some (hashes.length, ⟨title⟩)
        else none
    | [] => none
  else none

/-- Code fence opener `^(\x60\x60\x60)(\w*)\s*$` (three backticks, an
optional language word, trailing whitespace); returns the language. -/
def codeBlockStartMatch (line : String) : Option String :=
  match line.data with
  | a :: b :: c :: rest =>
      if a == btick && b == btick && c == btick then
        let lang := rest.takeWhile isWordChar
        if (rest.dropWhile isWordChar).all isSpaceRE then some ⟨lang⟩ else none
      else none
  | _ => none

/-- Code fence closer: three backticks then whitespace only. -/
def codeBlockEndMatch (line : String) : Bool :=
  match line.data with
  | a :: b :: c :: rest =>
      a == btick && b == btick && c == btick && rest.all isSpaceRE
  | _ => false

/-- Go `parser.isSeparatorCell`. -/
def isSeparatorCell (cell : String) : Bool :=
  let c := goTrimSpace cell
  c.data.isEmpty || c.data.all (fun r => r == '-' || r == ':')

/-- Go `parseTableRow` (inner closure of `Parse`). -/
def parseTableRow (line : String) : List String :=
  let t := goTrimSpace line
  match t.data with
  | '|' :: _ =>
      (splitCh '|' t.data).foldr
        (fun p acc =>
          let cell := goTrimSpace p
          if cell ≠ "" ∧ ¬ isSeparatorCell cell then cell :: acc else acc) []
  | _ => []

/-- Mutable state of `MarkdownParser.Parse`, one field per Go local.
The heading stack keeps its top at the head; `path` reverses it. -/
structure MDState where
  curTitle : String
  curStart : Nat
  curBuf : List String
  blankRun : Nat
  headingStack : List (Nat × String)
  inCodeBlock : Bool
  codeBlockLang : String
  codeBlockStart : Nat
  codeBlockBuf : List String
  codeBlocks : List CodeBlock
  tableRows : List TableRow
  chunks : List Chunk

/-- Go `headingStack.push`: pop entries of equal or greater level, then
push. -/
def pushHeading (st : List (Nat × String)) (level : Nat) (title : String) :
    List (Nat × String) :=
  (level, title) :: st.dropWhile (fun p => level ≤ p.1)

/-- Go `flush(endLine)`: discard a blank buffer (advancing the start
counter) or emit a chunk. -/
def flushMD (docID path : String) (endLine : Nat) (s : MDState) : MDState :=
  let txt := goTrimSpace (String.intercalate "\n" s.curBuf)
  if txt = "" then
    { s with curBuf := [], curStart := endLine + 1, codeBlocks := [], tableRows := [] }
  else
    let chunk : Chunk :=
      { chunkID := docID ++ ":" ++ toString s.curStart ++ "-" ++ toString endLine
        docID := docID
        path := path
        title := s.curTitle
        headingPath := (s.headingStack.map Prod.snd).reverse
        startLine := s.curStart
        endLine := endLine
        text := txt
        terms := NormalizeTerms txt
        codeBlocks := s.codeBlocks
        tableRows := s.tableRows
        hasCode := !s.codeBlocks.isEmpty }
    { s with chunks := s.chunks ++ [chunk], curBuf := [],
             curStart := endLine + 1, codeBlocks := [], tableRows := [] }

/-- Table-row statement of the `Parse` loop: when the trimmed line opens
with a pipe and yields cells, record a table row. -/
def mdTable (ln : Nat) (line : String) (s : MDState) : MDState :=
  match (goTrimSpace line).data with
  | '|' :: _ =>
      if (parseTableRow line).isEmpty then s
      else { s with tableRows :=
              s.tableRows ++ [({ cells := parseTableRow line, line := ln } : TableRow)] }
  | _ => s

/-- Blank-run tracking statement of the `Parse` loop. -/
def mdBlank (line : String) (s : MDState) : MDState :=
  if goTrimSpace line = "" then { s with blankRun := s.blankRun + 1 }
  else { s with blankRun := 0 }

/-- Buffer append (`curBuf = append(curBuf, line)`). -/
def mdAppend (line : String) (s : MDState) : MDState :=
  { s with curBuf := s.curBuf ++ [line] }

/-- State of an ordinary line right before the forced-flush check: table
row extraction, blank tracking, buffer append, in statement order. -/
def mdPre (ln : Nat) (line : String) (s : MDState) : MDState :=
  mdAppend line (mdBlank line (mdTable ln line s))

/-- Tail of the `Parse` loop for an ordinary line: the forced flush on
hitting the line cap or a blank run of four. -/
def mdOther (docID path : String) (maxLines : Nat) (ln : Nat) (line : String)
    (s : MDState) : MDState :=
  if maxLines ≤ (mdPre ln line s).curBuf.length ∨ 4 ≤ (mdPre ln line s).blankRun then
    { (flushMD docID path ln (mdPre ln line s)) with blankRun := 0 }
  else mdPre ln line s

/-- Heading bookkeeping: push onto the stack, retitle, append the
heading line, reset the blank run. -/
def mdHeadPush (level : Nat) (title line : String) (s : MDState) : MDState :=
  { s with headingStack := pushHeading s.headingStack level title,
           curTitle := title, curBuf := s.curBuf ++ [line], blankRun := 0 }

/-- Heading branch of the `Parse` loop: flush first when the buffer is
large enough. -/
def mdHeading (docID path : String) (minLines : Nat) (ln : Nat) (line : String)
    (level : Nat) (title : String) (s : MDState) : MDState :=
  mdHeadPush level title line
    (if minLines ≤ s.curBuf.length then flushMD docID path (ln - 1) s else s)

/-- One iteration of the `Parse` line loop at 1-indexed line `ln`. -/
def mdLine (docID path : String) (maxLines minLines : Nat) (ln : Nat)
    (line : String) (s : MDState) : MDState :=
  if s.inCodeBlock then
    if codeBlockEndMatch line then
      { s with
        codeBlocks := s.codeBlocks ++
          [({ language := s.codeBlockLang,
              code := String.intercalate "\n" s.codeBlockBuf,
              line := s.codeBlockStart } : CodeBlock)]
        inCodeBlock := false, codeBlockBuf := [], curBuf := s.curBuf ++ [line] }
    else
      { s with codeBlockBuf := s.codeBlockBuf ++ [line], curBuf := s.curBuf ++ [line] }
  else
    match codeBlockStartMatch line with
    | some lang =>
        { s with inCodeBlock := true, codeBlockLang := lang, codeBlockStart := ln,
                 codeBlockBuf := [], curBuf := s.curBuf ++ [line] }
    | none =>
      match headingMatch line with
      | some lv => mdHeading docID path minLines ln line lv.1 lv.2 s
      | none => mdOther docID path maxLines ln line s

/-- The `Parse` line loop, carrying the 1-indexed line number. -/
def mdLoop (docID path : String) (maxLines minLines : Nat) :
    List String → Nat → MDState → MDState
  | [], _, s => s
  | line :: rest, ln, s =>
      mdLoop docID path maxLines minLines rest (ln + 1)
        (mdLine docID path maxLines minLines ln line s)

/-- Initial parser state (title is the file basename, start line 1). -/
def mdInit (path : String) : MDState :=
  { curTitle := filepathBase path, curStart := 1, curBuf := [], blankRun := 0,
    headingStack := [], inCodeBlock := false, codeBlockLang := "",
    codeBlockStart := 0, codeBlockBuf := [], codeBlocks := [], tableRows := [],
    chunks := [] }

/-- Post-hoc document frequency: for each chunk the set of distinct terms
increments the counter (`seen` keeps first occurrences). -/
def computeDocFreq (chunks : List Chunk) : List (String × Nat) :=
  chunks.foldl (fun df c => c.terms.eraseDups.foldl bumpNat df) []

/-- Go `MarkdownParser.Parse` with configured thresholds (zero selects
the defaults 120/12 as in the source). -/
def MarkdownParse (abs : String → String) (maxLinesPerChunk minLinesPerChunk : Nat)
    (path content : String) : List Chunk × List (String × Nat) :=
  let maxL := if maxLinesPerChunk = 0 then 120 else maxLinesPerChunk
  let minL := if minLinesPerChunk = 0 then 12 else minLinesPerChunk
  let docID := DocIDForPath abs path
  let lines := splitLines content
  let s := mdLoop docID path maxL minL lines 1 (mdInit path)
  let s := if s.curBuf.isEmpty then s else flushMD docID path lines.length s
  (s.chunks, computeDocFreq s.chunks)

/-- Total line count of a document (`strings.Split(content, "\n")`). -/
def totalLines (content : String) : Nat := (splitLines content).length

/-- The sliding-window loop of `GenericParser.Parse` (fuel bounds the
iteration count; each step advances by `step ≥ 1`). -/
def genericLoop (docID path title : String) (chunkSize step n : Nat)
    (lines : List String) : Nat → Nat → List Chunk → List Chunk
  | 0, _, acc => acc
  | fuel + 1, i, acc =>
      if i < n then
        let e := min (i + chunkSize) n
        if e - i < 10 ∧ ¬ acc.isEmpty then acc
        else
          let txt := String.intercalate "\n" ((lines.drop i).take (e - i))
          let chunk : Chunk :=
            { chunkID := docID ++ ":" ++ toString (i + 1) ++ "-" ++ toString e
              docID := docID, path := path, title := title, headingPath := []
              startLine := i + 1, endLine := e, text := txt
              terms := NormalizeTerms txt, codeBlocks := [], tableRows := []
              hasCode := true }
          let acc := acc ++ [chunk]
          if e = n then acc else genericLoop docID path title chunkSize step n lines fuel (i + step) acc
      else acc

/-- Go `GenericParser.Parse` (window/overlap defaults 60/10). -/
def GenericParse (abs : String → String) (chunkSize overlap : Nat)
    (path content : String) : List Chunk × List (String × Nat) :=
  let lines := splitLines content
  let docID := DocIDForPath abs path
  let title := "Source Code: " ++ filepathBase path
  let cs := if chunkSize = 0 then 60 else chunkSize
  let ov := if cs ≤ overlap then cs / 2 else overlap
  let step := cs - ov
  let chunks := genericLoop docID path title cs step lines.length lines (lines.length + 1) 0 []
  (chunks, computeDocFreq chunks)

/-! ## internal/search: BM25 scorer and response assembly -/

/-- Go `search.approxTokens`: ceiling of byte length over four. -/
def approxTokens (s : String) : Nat := (byteLen s + 3) / 4

/-- Separator inserted between excerpts in `buildResponse`. -/
def sepString : String := "\n--------------------------------\n\n"

/-- Message returned by `Search` when nothing scores. -/
def noRelevantMsg : String := "No relevant excerpts found in the indexed document."

/-- Message returned by `buildResponse` when no excerpt fits. -/
def tokenLimitMsg : String := "Token limit too small to return any excerpt."

/-- search.BM25Config. -/
structure BM25Config where
  k1 : ℝ
  b : ℝ
  codeBoost : ℝ

/-- Go `search.DefaultBM25Config`. -/
noncomputable def defaultBM25Config : BM25Config :=
  { k1 := 1.2, b := 0.75, codeBoost := 1.2 }

/-- search.scoredChunk. -/
structure scoredChunk where
  chunk : Chunk
  score : ℝ

/-- Descending comparison used by the sort in `scoreChunks`
(`less i j := score i > score j`; sortedness of the output under that
comparison is `b.score ≤ a.score` for successive elements). -/
def relDesc (a b : scoredChunk) : Prop := b.score ≤ a.score

/-- Contract of Go `sort.Slice` on `scoredChunk` slices: the output is a
permutation of the input, sorted descending by score.  Go documents
nothing more — in particular NOT stability. -/
def SortOK (f : List scoredChunk → List scoredChunk) : Prop :=
  ∀ l, (f l).Perm l ∧ (f l).Sorted relDesc

noncomputable instance : DecidableRel relDesc :=
  fun _ _ => Classical.propDecidable _

instance : IsTotal scoredChunk relDesc :=
  ⟨fun a b => le_total b.score a.score⟩

instance : IsTrans scoredChunk relDesc :=
  ⟨fun _ _ _ h1 h2 => le_trans h2 h1⟩

/-- A reference implementation satisfying `SortOK`: stable insertion
sort by descending score (ties keep their input order). -/
noncomputable def sortScoredDesc : List scoredChunk → List scoredChunk :=
  List.insertionSort relDesc

/-- A second contract-conforming implementation that reverses ties:
stable-sorts the reversed input. -/
noncomputable def sortTieRev : List scoredChunk → List scoredChunk :=
  fun l => sortScoredDesc l.reverse

/-- Go `search.calcIDF`. -/
noncomputable def calcIDF (numChunks docFreq : ℝ) : ℝ :=
  Real.log (1 + (numChunks - docFreq + 0.5) / (docFreq + 0.5))

open Classical in
/-- Go `search.calcTF` (the zero-denominator test is the float equality
of the source). -/
noncomputable def calcTF (termCount docLen avgLen k1 b : ℝ) : ℝ :=
  let denominator := termCount + k1 * (1 - b + b * (docLen / avgLen))
  if denominator = 0 then 0 else termCount * (k1 + 1) / denominator

open Classical in
/-- Go `BM25Searcher.scoreChunk`.  The query-term map is iterated in
encounter order; the Go map iteration order is arbitrary, but the sum is
commutative in `ℝ`.  `float64(docFreq[term]) == 0` holds exactly when the
integer is zero, so the test is taken on the `Nat`. -/
noncomputable def scoreChunk (cfg : BM25Config) (chunk : Chunk)
    (queryTermCounts docFreq : List (String × Nat)) (numChunks avgLen : ℝ) : ℝ :=
  let tf := buildTF chunk.terms
  let docLen : ℝ := chunk.terms.length
  let score := queryTermCounts.foldl
    (fun acc p =>
      let dfN := lookupNat docFreq p.1
      if dfN = 0 then acc
      else acc + calcIDF numChunks dfN *
            calcTF (lookupNat tf p.1) docLen avgLen cfg.k1 cfg.b * (p.2 : ℝ)) 0
  if chunk.hasCode = true ∧ 0 < score then score * cfg.codeBoost else score

open Classical in
/-- Go `BM25Searcher.scoreChunks`: score every chunk, keep positive
scores in chunk order, then `sort.Slice` (embedded as `sortf`). -/
noncomputable def scoreChunks (sortf : List scoredChunk → List scoredChunk)
    (cfg : BM25Config) (idx : Index) (query : String) : List scoredChunk :=
  let queryTerms := NormalizeTerms query
  if queryTerms.isEmpty then []
  else
    let queryTermCounts := buildTF queryTerms
    if idx.numChunks = 0 then []
    else
      let numChunks : ℝ := idx.numChunks
      let avgLen := idx.chunks.foldl (fun a c => a + (c.terms.length : ℝ)) 0 / numChunks
      let results := idx.chunks.filterMap fun c =>
        let score := scoreChunk cfg c queryTermCounts idx.docFreq numChunks avgLen
        if 0 < score then some ⟨c, score⟩ else none
      sortf results

open Classical in
/-- The pre-sort result list of `scoreChunks` (everything up to the
`sort.Slice` call): the positively scoring chunks in parse order, paired
with their scores.  With the guard outcomes included this makes
`scoreChunks sortf = sortf ∘ preScored` for every contract-conforming
sort. -/
noncomputable def preScored (cfg : BM25Config) (idx : Index) (query : String) :
    List scoredChunk :=
  let queryTerms := NormalizeTerms query
  if queryTerms.isEmpty then []
  else
    let queryTermCounts := buildTF queryTerms
    if idx.numChunks = 0 then []
    else
      let numChunks : ℝ := idx.numChunks
      let avgLen := idx.chunks.foldl (fun a c => a + (c.terms.length : ℝ)) 0 / numChunks
      idx.chunks.filterMap fun c =>
        let score := scoreChunk cfg c queryTermCounts idx.docFreq numChunks avgLen
        if 0 < score then some ⟨c, score⟩ else none

/-- Go `search.formatExcerpt`. -/
def formatExcerpt (c : Chunk) : String :=
  let title :=
    if 1 < c.headingPath.length then
      c.headingPath.getD (c.headingPath.length - 2) "" ++ " › " ++
        c.headingPath.getD (c.headingPath.length - 1) ""
    else c.title
  "### " ++ title ++ "\n" ++ "Source: " ++ c.path ++ "#L" ++
    toString c.startLine ++ "-L" ++ toString c.endLine ++ "\n\n" ++ c.text ++ "\n"

/-- Go `BM25Searcher.trimExcerpt`: drop `over*4` trailing runes, clamp
at 80 (or the whole text when shorter), append newline and ellipsis when
anything was dropped. -/
def trimExcerpt (c : Chunk) (maxTokens : Nat) : String :=
  let excerpt := formatExcerpt c
  let tokens := approxTokens excerpt
  let over := tokens - maxTokens
  let runes := c.text.data
  let cut := runes.length - over * 4
  let cut := if cut < 80 then min 80 runes.length else cut
  if cut < runes.length then
    formatExcerpt { c with text := ⟨runes.take cut⟩ ++ "\n…" }
  else formatExcerpt c

/-- The excerpt-accumulation loop of `buildResponse`; returns the built
string and the excerpt count.  Each early `return`/`break` of the Go
loop is a non-recursive exit. -/
def buildLoop (maxTokens : Nat) :
    List scoredChunk → Nat → Nat → String → String × Nat
  | [], _, count, out => (out, count)
  | sc :: rest, used, count, out =>
      let excerpt := formatExcerpt sc.chunk
      let tokens := approxTokens excerpt
      let et :=
        if count = 0 ∧ maxTokens < tokens then
          let e := trimExcerpt sc.chunk maxTokens
          (e, approxTokens e)
        else (excerpt, tokens)
      if maxTokens < used + et.2 then (out, count)
      else
        let out := if 0 < count then out ++ sepString ++ et.1 else out ++ et.1
        let used := used + et.2
        let count := count + 1
        if maxTokens ≤ used then (out, count)
        else buildLoop maxTokens rest used count out

/-- Go `BM25Searcher.buildResponse`. -/
def buildResponse (scored : List scoredChunk) (maxTokens : Nat) : String :=
  let r := buildLoop maxTokens scored 0 0 ""
  if r.2 = 0 then tokenLimitMsg else r.1

/-- Go `BM25Searcher.Search` (non-positive budgets become the default). -/
noncomputable def bm25Search (sortf : List scoredChunk → List scoredChunk)
    (cfg : BM25Config) (idx : Index) (query : String) (maxTokens : Int) : String :=
  let mt : Nat := if maxTokens ≤ 0 then DefaultMaxTokens else maxTokens.toNat
  let scored := scoreChunks sortf cfg idx query
  if scored.isEmpty then noRelevantMsg else buildResponse scored mt

/-! ## internal/search/hybrid.go: cosine similarity and hybrid scoring -/

/-- Pointwise product sum; `dotQ a a` is the squared norm accumulated by
the Go loop. -/
def dotQ (a b : List ℚ) : ℚ := (List.zipWith (fun x y => x * y) a b).sum

open Classical in
/-- Go `search.cosineSimilarity` on `float32` vectors (components as
`ℚ`, accumulation in `ℝ` as the code accumulates in `float64`).  Both
zero tests of the source are exact. -/
noncomputable def cosineSimilarity (a b : List ℚ) : ℝ :=
  if a.length ≠ b.length ∨ a.length = 0 then 0
  else
    let dot := dotQ a b
    let normA := dotQ a a
    let normB := dotQ b b
    if normA = 0 ∨ normB = 0 then 0
    else (dot : ℝ) / (Real.sqrt (normA : ℝ) * Real.sqrt (normB : ℝ))

/-- Fusion method names and default RRF constant (hybrid.go). -/
def FusionMethodWeighted : String := "weighted"

/-- RRF fusion method name. -/
def FusionMethodRRF : String := "rrf"

/-- Default `k` of reciprocal rank fusion. -/
def DefaultRRFK : Nat := 60

/-- Lookup in an association-list embedding of `map[string]float64`. -/
def lookupR (m : List (String × ℝ)) (k : String) : Option ℝ :=
  (m.find? (fun p => p.1 == k)).map Prod.snd

/-- Accumulate into a `map[string]float64` (`m[k] += v`). -/
def bumpR (m : List (String × ℝ)) (k : String) (v : ℝ) : List (String × ℝ) :=
  match m with
  | [] => [(k, v)]
  | (k₁, w) :: rest =>
      if k₁ == k then (k₁, w + v) :: rest else (k₁, w) :: bumpR rest k v

open Classical in
/-- Go `HybridSearcher.scoreWeighted`. -/
noncomputable def scoreWeighted (sortf : List scoredChunk → List scoredChunk)
    (cfg : BM25Config) (bm25Weight embedWeight : ℝ) (idx : Index)
    (query : String) (queryEmbed : List ℚ) : List scoredChunk :=
  let bm25Scores := scoreChunks sortf cfg idx query
  let maxBM25 := bm25Scores.foldl (fun m sc => if m < sc.score then sc.score else m) 0
  let bm25Map := bm25Scores.map fun sc =>
    (sc.chunk.chunkID, if 0 < maxBM25 then sc.score / maxBM25 else 0)
  let results := idx.chunks.filterMap fun chunk =>
    match chunk.embedding with
    | none =>
        match lookupR bm25Map chunk.chunkID with
        | some s => if 0 < s then some ⟨chunk, s * bm25Weight⟩ else none
        | none => none
    | some emb =>
        let cosineSim := cosineSimilarity queryEmbed emb
        let embedScore := (cosineSim + 1) / 2
        let bm25Score := (lookupR bm25Map chunk.chunkID).getD 0
        let hybridScore := bm25Weight * bm25Score + embedWeight * embedScore
        if 0 < hybridScore then some ⟨chunk, hybridScore⟩ else none
  sortf results

/-- Go `HybridSearcher.scoreRRF`.  The embedding ranking's `sort.Slice`
enters as `sortPairs` under the same documented contract; the two map
iterations feeding `rrfScores` accumulate a commutative sum and are
embedded in list order. -/
noncomputable def scoreRRF (sortf : List scoredChunk → List scoredChunk)
    (sortPairs : List (String × ℝ) → List (String × ℝ)) (cfg : BM25Config)
    (rrfK : Nat) (idx : Index) (query : String) (queryEmbed : List ℚ) :
    List scoredChunk :=
  let bm25Scores := scoreChunks sortf cfg idx query
  let bm25Ranks := bm25Scores.enum.map fun p => (p.2.chunk.chunkID, p.1 + 1)
  let embedScores := idx.chunks.filterMap fun c =>
    c.embedding.map fun e => (c.chunkID, cosineSimilarity queryEmbed e)
  let embedSorted := sortPairs embedScores
  let embedRanks := embedSorted.enum.map fun p => (p.2.1, p.1 + 1)
  let k : ℝ := rrfK
  let rrfScores :=
    (bm25Ranks ++ embedRanks).foldl
      (fun m p => bumpR m p.1 (1 / (k + (p.2 : ℝ)))) []
  let results := idx.chunks.filterMap fun c =>
    (lookupR rrfScores c.chunkID).map fun score => (⟨c, score⟩ : scoredChunk)
  sortf results

/-- Go `HybridSearcher.scoreHybrid`: select the configured fusion. -/
noncomputable def scoreHybrid (sortf : List scoredChunk → List scoredChunk)
    (sortPairs : List (String × ℝ) → List (String × ℝ)) (cfg : BM25Config)
    (fusionMethod : String) (bm25Weight embedWeight : ℝ) (rrfK : Nat)
    (idx : Index) (query : String) (queryEmbed : List ℚ) : List scoredChunk :=
  if fusionMethod = FusionMethodWeighted then
    scoreWeighted sortf cfg bm25Weight embedWeight idx query queryEmbed
  else scoreRRF sortf sortPairs cfg rrfK idx query queryEmbed

/-- Go `HybridSearcher.Search`.  The readiness tracker enters as the
function `isReady` (`embedding.Status.IsReady` is a locked map lookup
defaulting to false); the embedder as `embed`, whose `error` outcome is
the failed RPC. -/
noncomputable def hybridSearch (sortf : List scoredChunk → List scoredChunk)
    (sortPairs : List (String × ℝ) → List (String × ℝ)) (cfg : BM25Config)
    (fusionMethod : String) (bm25Weight embedWeight : ℝ) (rrfK : Nat)
    (isReady : String → Bool) (embed : String → Except Unit (List ℚ))
    (idx : Index) (query : String) (maxTokens : Int) : String :=
  let mt : Int := if maxTokens ≤ 0 then (DefaultMaxTokens : Int) else maxTokens
  if ¬ isReady idx.docID then bm25Search sortf cfg idx query mt
  else if ¬ idx.chunks.any (fun c => c.embedding.isSome) then
    bm25Search sortf cfg idx query mt
  else
    match embed query with
    | .error _ => bm25Search sortf cfg idx query mt
    | .ok queryEmbed =>
        let scored := scoreHybrid sortf sortPairs cfg fusionMethod bm25Weight
          embedWeight rrfK idx query queryEmbed
        if scored.isEmpty then noRelevantMsg
        else
          let mtN : Nat := if mt ≤ 0 then DefaultMaxTokens else mt.toNat
          buildResponse scored mtN

/-! ## internal/cache: the disk loader's version gate -/

/-- Error kinds of the cache loader (`ErrNotFound`, `ErrVersionMismatch`;
read and unmarshal failures are IO conditions outside the model, which
maps a DocID directly to the parsed record when the file exists). -/
inductive CacheErr where
  | notFound
  | versionMismatch
deriving Repr, DecidableEq

/-- Go `FileCache.LoadFromDisk` on a disk state `disk`: absent file is
not-found; a record whose version differs from `domain.CacheVersion` is
rejected as a version mismatch; otherwise the record is returned. -/
def LoadFromDisk (disk : String → Option Index) (docID : String) :
    Except CacheErr Index :=
  match disk docID with
  | none => .error .notFound
  | some idx =>
      if idx.version ≠ CacheVersion then .error .versionMismatch else .ok idx

/-! ## internal/indexer: Load and QueryAll -/

/-- indexer.LoadResult. -/
structure LoadResult where
  docID : String
  path : String
  numChunks : Nat
  fromCache : Bool
  indexedAt : Nat
deriving Repr, DecidableEq

/-- Environment of a `Load` call: path canonicalizer, the two cache
tiers, the file reader (`ReadFile`/`HashFile` read the same bytes,
restricted to UTF-8 content), the clock, and whether an embedder is
configured. -/
structure LoadEnv where
  abs : String → String
  mem : String → Option Index
  disk : String → Option Index
  readFile : String → Option String
  now : Nat
  embedderConfigured : Bool

/-- Effects of a `Load` call: the returned result, both cache tiers
afterwards, and the indices pushed onto the embedding queue. -/
structure LoadOutcome where
  result : LoadResult
  memAfter : String → Option Index
  diskAfter : String → Option Index
  enqueued : List Index

/-- Point update of a cache tier (`Set` / `SaveToDisk`, whole-record
replace). -/
def updateMap (f : String → Option Index) (k : String) (v : Index) :
    String → Option Index :=
  fun x => if x = k then some v else f x

/-- Go `Indexer.Load`: empty-path error; memory hit; read and hash;
disk hit validated by path and content hash; otherwise parse (markdown
for `.md`/`.markdown`, generic otherwise), persist to both tiers, and
enqueue when an embedder is configured. -/
def Load (env : LoadEnv) (path : String) : Except String LoadOutcome :=
  if path = "" then .error "path is required"
  else
    let docID := DocIDForPath env.abs path
    match env.mem docID with
    | some cached =>
        .ok { result := { docID := cached.docID, path := cached.path,
                          numChunks := cached.numChunks, fromCache := true,
                          indexedAt := cached.indexedAt }
              memAfter := env.mem, diskAfter := env.disk, enqueued := [] }
    | none =>
      match env.readFile path with
      | none => .error "read file"
      | some content =>
        let fileHash := hashHex content
        let diskHit :=
          match LoadFromDisk env.disk docID with
          | .ok cached =>
              if cached.path = path ∧ cached.fileHash = fileHash then some cached
              else none
          | .error _ => none
        match diskHit with
        | some cached =>
            .ok { result := { docID := cached.docID, path := cached.path,
                              numChunks := cached.numChunks, fromCache := true,
                              indexedAt := cached.indexedAt }
                  memAfter := updateMap env.mem docID cached,
                  diskAfter := env.disk, enqueued := [] }
        | none =>
            let ext := lowerStr (filepathExt path)
            let parsed :=
              if ext = ".md" ∨ ext = ".markdown" then
                MarkdownParse env.abs 120 12 path content
              else GenericParse env.abs 60 10 path content
            let index : Index :=
              { docID := docID, path := path, sourceURL := "",
                fileHash := fileHash, indexedAt := env.now,
                chunks := parsed.1, docFreq := parsed.2,
                numChunks := parsed.1.length, version := CacheVersion }
            .ok { result := { docID := docID, path := path,
                              numChunks := parsed.1.length, fromCache := false,
                              indexedAt := env.now }
                  memAfter := updateMap env.mem docID index,
                  diskAfter := updateMap env.disk docID index,
                  enqueued := if env.embedderConfigured then [index] else [] }

/-- Message of `QueryAll` when every per-document response is filtered. -/
def noRelevantAllMsg : String := "No relevant excerpts found in any loaded document."

/-- Environment of `QueryAll`: the DocID snapshot of `cache.List()` (Go
map iteration order is arbitrary; the embedding takes the snapshot as
given) and the memory tier. -/
structure QueryEnv where
  docIDs : List String
  get : String → Option Index

/-- The document loop of `QueryAll`: skip memory misses, stop when the
remaining budget is gone, keep responses that are non-empty and do not
contain the fixed substring, charging `len/4` tokens. -/
def queryAllLoop (search : Index → String → Int → String) (env : QueryEnv)
    (prompt : String) (maxTokens : Int) :
    List String → List String → Int → List String × Int
  | [], results, used => (results, used)
  | docID :: rest, results, used =>
      match env.get docID with
      | none => queryAllLoop search env prompt maxTokens rest results used
      | some index =>
          let remaining := maxTokens - used
          if remaining ≤ 0 then (results, used)
          else
            let excerpt := search index prompt remaining
            if excerpt ≠ "" ∧ containsSub excerpt "No relevant excerpts" = false then
              queryAllLoop search env prompt maxTokens rest (results ++ [excerpt])
                (used + (byteLen excerpt : Int) / 4)
            else queryAllLoop search env prompt maxTokens rest results used

/-- Go `Indexer.QueryAll`. -/
def QueryAll (search : Index → String → Int → String) (env : QueryEnv)
    (prompt : String) (maxTokens : Int) : Except String String :=
  if prompt = "" then .error "prompt is required"
  else if env.docIDs.isEmpty then
    .error "no documents loaded (use docs_load or site_load first)"
  else
    let r := queryAllLoop search env prompt maxTokens env.docIDs [] 0
    if r.1.isEmpty then .ok noRelevantAllMsg
    else .ok (String.intercalate "\n\n---\n\n" r.1)

/-! ## Statement-level definitions used by the claim theorems -/

/-- Well-formed chunk sequence: every chunk has `startLine ≤ endLine`,
ranges never overlap and appear in document order, the first starts at
`lo` or later, and every `endLine` stays below `hi`. -/
def chain : Nat → List Chunk → Nat → Prop
  | lo, [], hi => lo ≤ hi
  | lo, c :: cs, hi =>
      lo ≤ c.startLine ∧ c.startLine ≤ c.endLine ∧ chain (c.endLine + 1) cs hi

/-- Loop invariant of the markdown parser after `n` processed lines:
the emitted chunks form a chain below the current start counter, and the
buffer holds exactly the lines from the start counter through line `n`. -/
def MDInv (s : MDState) (n : Nat) : Prop :=
  chain 1 s.chunks s.curStart ∧ s.curStart + s.curBuf.length = n + 1

/-- The inclusive 1-indexed line range of a chunk. -/
def lineRange (c : Chunk) : List Nat :=
  List.range' c.startLine (c.endLine + 1 - c.startLine)

/-- Markdown input refuting claim C1: an all-blank region in the middle
of the file is discarded by an empty-text flush (lines 6–9 are covered by
no chunk), and a fenced code block suppresses the max-lines check while
it is open (the second chunk spans 121 lines). -/
def c1CexContent : String :=
  String.intercalate "\n"
    (["a", "", "", "", "", "", "", "", ""] ++ List.replicate 117 "x" ++
     ["```", "x", "```", "y"])

/-- Lowercase hexadecimal characters. -/
def isHexChar (c : Char) : Bool := "0123456789abcdef".data.contains c

/-- A stored record with a stale schema version (claim C5 witness). -/
def c5Rec : Index :=
  { docID := "d", path := "p", fileHash := "h", indexedAt := 0, chunks := [],
    docFreq := [], numChunks := 0, version := 3 }

/-- A minimal chunk whose only term is "zebra" (concrete search runs). -/
def c3Chunk : Chunk :=
  { chunkID := "z:1-1", docID := "z", path := "p", title := "T", headingPath := [],
    startLine := 1, endLine := 1, text := "zebra", terms := ["zebra"],
    codeBlocks := [], tableRows := [], hasCode := false }

/-- An index whose chunk list, chunk count and document-frequency table
are uniform in one term (used to realize concrete BM25 runs: every chunk
then receives the same positive score). -/
def uniIdx (cs : List Chunk) (term : String) : Index :=
  { docID := "z", path := "p", fileHash := "", indexedAt := 0,
    chunks := cs, docFreq := [(term, cs.length)], numChunks := cs.length,
    version := CacheVersion }

/-- The common score of the chunks of a uniform one-term index with `k`
chunks under the default BM25 configuration. -/
noncomputable def uScore (k : Nat) : ℝ :=
  0 + calcIDF (k : ℝ) (k : ℝ) *
      calcTF 1 1 1 defaultBM25Config.k1 defaultBM25Config.b * 1

/-- Index with five identical one-term chunks (claim C3 counterexample). -/
def c3Idx : Index := uniIdx (List.replicate 5 c3Chunk) "zebra"

/-- Index with a single one-term chunk (claims C4 and C6 witnesses). -/
def c4Idx : Index := uniIdx [c3Chunk] "zebra"

/-- First of two score-tied chunks (claim C2 counterexample). -/
def c2ChunkA : Chunk := { c3Chunk with chunkID := "z1:1-1", text := "zebra one" }

/-- Second of two score-tied chunks (claim C2 counterexample). -/
def c2ChunkB : Chunk := { c3Chunk with chunkID := "z2:1-1", text := "zebra two" }

/-- Index with two score-tied chunks (claim C2 counterexample). -/
def c2Idx : Index := uniIdx [c2ChunkA, c2ChunkB] "zebra"

/-- A chunk whose text itself contains the filtered substring while
genuinely matching the query term (claim C10 scenario). -/
def c10Chunk : Chunk :=
  { c3Chunk with text := "No relevant excerpts here zebra" }

/-- Index holding `c10Chunk` (claim C10 scenario). -/
def c10Idx : Index := uniIdx [c10Chunk] "zebra"

/-- Query environment with the single document `c10Idx` (claim C10). -/
def c10Env : QueryEnv :=
  { docIDs := ["d"], get := fun s => if s = "d" then some c10Idx else none }

/-- A disk record with matching path and content hash but a stale schema
version (claim C7 counterexample). -/
def c7Rec : Index :=
  { docID := DocIDForPath id "a.md", path := "a.md", fileHash := hashHex "x",
    indexedAt := 7, chunks := [], docFreq := [], numChunks := 0, version := 3 }

/-- Load environment for the C7 counterexample: empty memory tier, a
version-3 record with matching path and hash on disk, the file readable
with content "x". -/
def c7Env : LoadEnv :=
  { abs := id, mem := fun _ => none,
    disk := fun d => if d = DocIDForPath id "a.md" then some c7Rec else none,
    readFile := fun p => if p = "a.md" then some "x" else none,
    now := 9, embedderConfigured := false }

/-- The concrete searcher of the C10 scenario: the BM25 search with the
stable reference sort and the default configuration. -/
noncomputable def c10search : Index → String → Int → String :=
  fun idx q mt => bm25Search sortScoredDesc defaultBM25Config idx q mt

/-! ## Parser invariants (claim C1) -/

theorem chain_le {lo hi : Nat} : ∀ {cs : List Chunk}, chain lo cs hi → lo ≤ hi
  | [], h => h
  | c :: _, h => by
      have h1 := h.1
      have h2 := h.2.1
      have h3 := chain_le h.2.2
      omega

theorem chain_mono {lo hi hi2 : Nat} (hh : hi ≤ hi2) :
    ∀ {cs : List Chunk}, chain lo cs hi → chain lo cs hi2
  | [], h => le_trans h hh
  | c :: cs, h => ⟨h.1, h.2.1, chain_mono hh h.2.2⟩

theorem chain_snoc {lo hi : Nat} {c : Chunk} (h1 : hi ≤ c.startLine)
    (h2 : c.startLine ≤ c.endLine) :
    ∀ {cs : List Chunk}, chain lo cs hi → chain lo (cs ++ [c]) (c.endLine + 1)
  | [], h => ⟨le_trans h h1, h2, Nat.le_refl _⟩
  | d :: cs, h => ⟨h.1, h.2.1, chain_snoc h1 h2 h.2.2⟩

theorem chain_mem {lo hi : Nat} :
    ∀ {cs : List Chunk}, chain lo cs hi →
      ∀ c ∈ cs, lo ≤ c.startLine ∧ c.startLine ≤ c.endLine ∧ c.endLine < hi
  | [], _, _, hc => absurd hc (List.not_mem_nil _)
  | d :: cs, h, c, hc => by
      rcases List.mem_cons.mp hc with rfl | hc
      · have := chain_le h.2.2
        exact ⟨h.1, h.2.1, by omega⟩
      · have h1 := h.1
        have h2 := h.2.1
        have h3 := chain_mem h.2.2 c hc
        have h4 := h3.1
        exact ⟨by omega, h3.2.1, h3.2.2⟩

theorem goTrimSpace_empty : goTrimSpace (String.intercalate "\n" []) = "" := rfl

theorem flushMD_inv {docID path : String} {e : Nat} {s : MDState}
    (hc : chain 1 s.chunks s.curStart)
    (he : s.curStart + s.curBuf.length = e + 1) :
    chain 1 (flushMD docID path e s).chunks (e + 1) ∧
      (flushMD docID path e s).curStart = e + 1 ∧
      (flushMD docID path e s).curBuf = [] := by
  simp only [flushMD]
  by_cases h : goTrimSpace (String.intercalate "\n" s.curBuf) = ""
  · rw [if_pos h]
    exact ⟨chain_mono (by omega) hc, rfl, rfl⟩
  · have hbuf : s.curBuf ≠ [] := by
      intro hb
      exact h (hb ▸ goTrimSpace_empty)
    have hlen : 1 ≤ s.curBuf.length := List.length_pos.mpr hbuf
    rw [if_neg h]
    refine ⟨?_, rfl, rfl⟩
    exact chain_snoc (Nat.le_refl _) (show s.curStart ≤ e by omega) hc

theorem mdTable_fields (ln : Nat) (line : String) (s : MDState) :
    (mdTable ln line s).chunks = s.chunks ∧
      (mdTable ln line s).curStart = s.curStart ∧
      (mdTable ln line s).curBuf = s.curBuf ∧
      (mdTable ln line s).blankRun = s.blankRun := by
  unfold mdTable
  split
  · split <;> exact ⟨rfl, rfl, rfl, rfl⟩
  · exact ⟨rfl, rfl, rfl, rfl⟩

theorem mdBlank_fields (line : String) (s : MDState) :
    (mdBlank line s).chunks = s.chunks ∧
      (mdBlank line s).curStart = s.curStart ∧
      (mdBlank line s).curBuf = s.curBuf := by
  unfold mdBlank
  split <;> exact ⟨rfl, rfl, rfl⟩

theorem mdPre_fields (ln : Nat) (line : String) (s : MDState) :
    (mdPre ln line s).chunks = s.chunks ∧
      (mdPre ln line s).curStart = s.curStart ∧
      (mdPre ln line s).curBuf = s.curBuf ++ [line] := by
  obtain ⟨ht1, ht2, ht3, _⟩ := mdTable_fields ln line s
  obtain ⟨hb1, hb2, hb3⟩ := mdBlank_fields line (mdTable ln line s)
  unfold mdPre mdAppend
  refine ⟨by rw [hb1, ht1], by rw [hb2, ht2], by rw [hb3, ht3]⟩

theorem mdOther_inv {docID path : String} {maxL n : Nat} {line : String}
    {s : MDState} (h : MDInv s n) :
    MDInv (mdOther docID path maxL (n + 1) line s) (n + 1) := by
  obtain ⟨hc, he⟩ := h
  obtain ⟨hp1, hp2, hp3⟩ := mdPre_fields (n + 1) line s
  have hc2 : chain 1 (mdPre (n + 1) line s).chunks (mdPre (n + 1) line s).curStart := by
    rw [hp1, hp2]; exact hc
  have he2 : (mdPre (n + 1) line s).curStart + (mdPre (n + 1) line s).curBuf.length
      = (n + 1) + 1 := by
    rw [hp2, hp3]
    simp only [List.length_append, List.length_singleton]
    omega
  simp only [MDInv]
  unfold mdOther
  split
  · obtain ⟨hf1, hf2, hf3⟩ := @flushMD_inv docID path (n + 1) (mdPre (n + 1) line s) hc2 he2
    generalize hG : flushMD docID path (n + 1) (mdPre (n + 1) line s) = F at hf1 hf2 hf3 ⊢
    refine ⟨?_, ?_⟩
    · show chain 1 F.chunks F.curStart
      rw [hf2]
      exact hf1
    · show F.curStart + F.curBuf.length = (n + 1) + 1
      rw [hf2, hf3]
      simp
  · exact ⟨hc2, he2⟩

theorem mdHeading_inv {docID path : String} {minL n : Nat} {line title : String}
    {level : Nat} {s : MDState} (h : MDInv s n) :
    MDInv (mdHeading docID path minL (n + 1) line level title s) (n + 1) := by
  obtain ⟨hc, he⟩ := h
  simp only [MDInv]
  unfold mdHeading mdHeadPush
  have hn : (n + 1) - 1 = n := by omega
  rw [hn]
  split
  · obtain ⟨hf1, hf2, hf3⟩ := @flushMD_inv docID path n s hc (by omega)
    generalize hG : flushMD docID path n s = F at hf1 hf2 hf3 ⊢
    refine ⟨?_, ?_⟩
    · show chain 1 F.chunks F.curStart
      rw [hf2]
      exact hf1
    · show F.curStart + (F.curBuf ++ [line]).length = (n + 1) + 1
      rw [hf2, hf3]
      simp
  · refine ⟨hc, ?_⟩
    show s.curStart + (s.curBuf ++ [line]).length = (n + 1) + 1
    simp only [List.length_append, List.length_singleton]
    omega

theorem mdLine_inv {docID path : String} {maxL minL n : Nat} {line : String}
    {s : MDState} (h : MDInv s n) :
    MDInv (mdLine docID path maxL minL (n + 1) line s) (n + 1) := by
  obtain ⟨hc, he⟩ := h
  simp only [MDInv]
  unfold mdLine
  split
  · split
    · refine ⟨hc, ?_⟩
      show s.curStart + (s.curBuf ++ [line]).length = (n + 1) + 1
      simp only [List.length_append, List.length_singleton]
      omega
    · refine ⟨hc, ?_⟩
      show s.curStart + (s.curBuf ++ [line]).length = (n + 1) + 1
      simp only [List.length_append, List.length_singleton]
      omega
  · split
    · refine ⟨hc, ?_⟩
      show s.curStart + (s.curBuf ++ [line]).length = (n + 1) + 1
      simp only [List.length_append, List.length_singleton]
      omega
    · split
      · exact mdHeading_inv ⟨hc, he⟩
      · exact mdOther_inv ⟨hc, he⟩

theorem mdLoop_inv {docID path : String} {maxL minL : Nat} :
    ∀ (lines : List String) (n : Nat) (s : MDState), MDInv s n →
      MDInv (mdLoop docID path maxL minL lines (n + 1) s) (n + lines.length)
  | [], n, s, h => by simpa [mdLoop] using h
  | line :: rest, n, s, h => by
      have h1 := @mdLine_inv docID path maxL minL n line s h
      have h2 := @mdLoop_inv docID path maxL minL rest (n + 1) _ h1
      simpa [mdLoop, Nat.add_assoc, Nat.add_comm 1 rest.length] using h2

theorem markdownParse_chain (abs : String → String) (maxL minL : Nat)
    (path content : String) :
    chain 1 (MarkdownParse abs maxL minL path content).1 (totalLines content + 1) := by
  unfold MarkdownParse
  have hinit : MDInv (mdInit path) 0 := by
    constructor
    · exact Nat.le_refl 1
    · rfl
  have hloop := @mdLoop_inv (DocIDForPath abs path) path
    (if maxL = 0 then 120 else maxL) (if minL = 0 then 12 else minL)
    (splitLines content) 0 (mdInit path) hinit
  simp only [Nat.zero_add] at hloop
  obtain ⟨hc, he⟩ := hloop
  set sf := mdLoop (DocIDForPath abs path) path (if maxL = 0 then 120 else maxL)
    (if minL = 0 then 12 else minL) (splitLines content) 1 (mdInit path) with hsf
  by_cases hb : sf.curBuf.isEmpty
  · simp only [hb, if_pos]
    have hlen : sf.curBuf.length = 0 := by
      simpa [List.isEmpty_iff] using hb
    have hcs : sf.curStart = (splitLines content).length + 1 := by omega
    simpa [totalLines, hcs] using hc
  · simp only [hb]
    have hf := @flushMD_inv (DocIDForPath abs path) path
      ((splitLines content).length) sf hc (by omega)
    simpa [totalLines] using hf.1

/-- Claim C1, amended.  For every markdown input the chunks produced by
`MarkdownParser.Parse` are in document order with non-overlapping ranges
contained in `[1..total_lines]`, and every chunk satisfies
`StartLine ≤ EndLine`.  The original claim's exact-coverage and
120-line-cap conjuncts are refuted by `c1_counterexample`: an all-blank
region in mid-file is discarded by an empty flush, and lines consumed
inside a code fence (or as headings) bypass the max-lines check. -/
theorem c1_theorem (abs : String → String) (maxL minL : Nat) (path content : String) :
    chain 1 (MarkdownParse abs maxL minL path content).1 (totalLines content + 1) ∧
      (MarkdownParse abs maxL minL path content).1.Forall
        (fun c => 1 ≤ c.startLine ∧ c.startLine ≤ c.endLine ∧
          c.endLine ≤ totalLines content) := by
  refine ⟨markdownParse_chain abs maxL minL path content, ?_⟩
  rw [List.forall_iff_forall_mem]
  intro c hc
  have h := chain_mem (markdownParse_chain abs maxL minL path content) c hc
  exact ⟨h.1, h.2.1, by omega⟩

set_option maxRecDepth 40000 in
/-- Claim C1, counterexample to the claim as stated: on `c1CexContent`
the concatenation of the chunk line ranges is not `[1..total_lines]`
(lines 6–9 are dropped), so in particular the ranges are not contiguous,
and the second chunk spans 121 > 120 lines. -/
theorem c1_counterexample :
    ¬ ((((MarkdownParse id 120 12 "doc.md" c1CexContent).1.map lineRange).flatten =
          List.range' 1 (totalLines c1CexContent)) ∧
        (∀ c ∈ (MarkdownParse id 120 12 "doc.md" c1CexContent).1,
          c.startLine ≤ c.endLine) ∧
        ∀ c ∈ (MarkdownParse id 120 12 "doc.md" c1CexContent).1,
          c.endLine + 1 - c.startLine ≤ 120) := by
  intro h
  exact absurd h.1 (by decide)

/-! ## Cache version gate (claim C5) -/

/-- Claim C5: for every stored record, `LoadFromDisk` returns the
version-mismatch error kind exactly when the record's version field
differs from the current schema version, whose current value is 4; a
missing record gives the distinct not-found kind. -/
theorem c5_theorem :
    (∀ (disk : String → Option Index) (docID : String) (rec : Index),
        disk docID = some rec →
        (LoadFromDisk disk docID = .error .versionMismatch ↔ rec.version ≠ 4)) ∧
      (∀ (disk : String → Option Index) (docID : String),
        disk docID = none → LoadFromDisk disk docID = .error .notFound) ∧
      CacheVersion = 4 ∧ CacheErr.versionMismatch ≠ CacheErr.notFound := by
  refine ⟨?_, ?_, rfl, by decide⟩
  · intro disk docID rec h
    by_cases hv : rec.version = CacheVersion
    · simp [LoadFromDisk, h, hv, CacheVersion]
    · simp [LoadFromDisk, h, hv, CacheVersion]
  · intro disk docID h
    simp [LoadFromDisk, h]

/-- Claim C5 witness: a concrete disk state holding a version-3 record
is rejected with the version-mismatch kind, and a missing record gives
not-found. -/
theorem c5_witness :
    (LoadFromDisk (fun d => if d = "dd" then some c5Rec else none) "dd" =
        .error .versionMismatch ↔ c5Rec.version ≠ 4) ∧
      LoadFromDisk (fun _ => none) "dd" = .error .notFound :=
  ⟨c5_theorem.1 (fun d => if d = "dd" then some c5Rec else none) "dd" c5Rec (by decide),
   c5_theorem.2.1 (fun _ => none) "dd" rfl⟩

/-! ## DocID derivation (claim C8) -/

theorem natBytesBE_length : ∀ (n x : Nat), (natBytesBE n x).length = n
  | 0, _ => rfl
  | n + 1, x => by simp [natBytesBE, natBytesBE_length n]

theorem sha256_length (msg : List Nat) : (sha256 msg).length = 32 := by
  simp [sha256, shaStateBytes, natBytesBE_length]

theorem hexEncode_length : ∀ l : List Nat, (hexEncode l).length = 2 * l.length
  | [] => rfl
  | b :: rest => by simp [hexEncode, hexEncode_length rest]; omega

theorem hexEncode_take : ∀ (l : List Nat) (n : Nat),
    (hexEncode l).take (2 * n) = hexEncode (l.take n)
  | [], n => by simp [hexEncode]
  | b :: rest, 0 => by simp [hexEncode]
  | b :: rest, n + 1 => by
      have h2 : 2 * (n + 1) = (2 * n) + 1 + 1 := by omega
      simp [hexEncode, h2, List.take_succ_cons, hexEncode_take rest n]

theorem hexDigit_hex : ∀ n : Nat, n < 16 → isHexChar (hexDigit n) = true := by
  decide

theorem hexEncode_chars : ∀ l : List Nat, ∀ c ∈ hexEncode l, isHexChar c = true
  | [], _, hc => absurd hc (List.not_mem_nil _)
  | b :: rest, c, hc => by
      rcases List.mem_cons.mp hc with rfl | hc2
      · exact hexDigit_hex _ (Nat.mod_lt _ (by omega))
      · rcases List.mem_cons.mp hc2 with rfl | hc3
        · exact hexDigit_hex _ (Nat.mod_lt _ (by omega))
        · exact hexEncode_chars rest c hc3

/-- Claim C8: DocIDs are pure deterministic functions of the canonical
source key and consist of exactly 16 lowercase hexadecimal characters:
the first 64 bits (8 bytes, 16 hex digits) of the SHA-256 of the
absolute path for local files, and of the URL string for fetched sites. -/
theorem c8_theorem :
    (∀ (abs : String → String) (path : String),
        (DocIDForPath abs path).length = 16 ∧
        (DocIDForPath abs path).data.Forall (fun c => isHexChar c = true) ∧
        DocIDForPath abs path = docIDForURL (abs path)) ∧
      (∀ url : String,
        (docIDForURL url).length = 16 ∧
        (docIDForURL url).data.Forall (fun c => isHexChar c = true) ∧
        docIDForURL url = ⟨hexEncode ((sha256 (strBytes url)).take 8)⟩) ∧
      ∀ (abs : String → String) (p q : String),
        abs p = abs q → DocIDForPath abs p = DocIDForPath abs q := by
  have hurl : ∀ url : String,
      (docIDForURL url).length = 16 ∧
      (docIDForURL url).data.Forall (fun c => isHexChar c = true) ∧
      docIDForURL url = ⟨hexEncode ((sha256 (strBytes url)).take 8)⟩ := by
    intro url
    refine ⟨?_, ?_, rfl⟩
    · show (hexEncode ((sha256 (strBytes url)).take 8)).length = 16
      rw [hexEncode_length]
      have h := sha256_length (strBytes url)
      rw [List.length_take, h]
      decide
    · rw [List.forall_iff_forall_mem]
      intro c hc
      exact hexEncode_chars _ c hc
  have hpath : ∀ (abs : String → String) (path : String),
      DocIDForPath abs path = docIDForURL (abs path) := by
    intro abs path
    show String.mk ((hexEncode (sha256 (strBytes (abs path)))).take 16) = _
    have h16 : (16 : Nat) = 2 * 8 := by omega
    rw [h16, hexEncode_take]
    rfl
  refine ⟨?_, hurl, ?_⟩
  · intro abs path
    rw [hpath abs path]
    exact ⟨(hurl (abs path)).1, (hurl (abs path)).2.1, rfl⟩
  · intro abs p q h
    unfold DocIDForPath
    rw [h]

/-- Claim C8 witness: the determinism conjunct applied at a concrete
path pair with equal canonical keys. -/
theorem c8_witness :
    DocIDForPath id "docs/nats.md" = DocIDForPath id "docs/nats.md" :=
  c8_theorem.2.2 id "docs/nats.md" "docs/nats.md" rfl

/-! ## Cosine similarity (claim C9) -/

theorem dotQ_nil_right (a : List ℚ) : dotQ a [] = 0 := by
  cases a <;> rfl

theorem dotQ_self_nonneg : ∀ a : List ℚ, 0 ≤ dotQ a a
  | [] => le_refl 0
  | x :: xs => by
      have ih := dotQ_self_nonneg xs
      have hx : 0 ≤ x * x := mul_self_nonneg x
      simp only [dotQ, List.zipWith_cons_cons, List.sum_cons] at ih ⊢
      linarith

theorem dotQ_sq_le : ∀ a b : List ℚ, dotQ a b ^ 2 ≤ dotQ a a * dotQ b b
  | [], b => by simp [dotQ]
  | a, [] => by simp [dotQ_nil_right]
  | x :: xs, y :: ys => by
      have ih := dotQ_sq_le xs ys
      have hA := dotQ_self_nonneg xs
      have hB := dotQ_self_nonneg ys
      simp only [dotQ, List.zipWith_cons_cons, List.sum_cons] at ih hA hB ⊢
      set d := (List.zipWith (fun x y => x * y) xs ys).sum with hd
      set A := (List.zipWith (fun x y => x * y) xs xs).sum with hAd
      set B := (List.zipWith (fun x y => x * y) ys ys).sum with hBd
      rcases lt_or_eq_of_le hB with hBpos | hB0
      · nlinarith [sq_nonneg (x * B - y * d), mul_nonneg hB (sub_nonneg.mpr ih),
          mul_nonneg (mul_self_nonneg y) (sub_nonneg.mpr ih)]
      · have hd0 : d = 0 := by
          have h1 : d ^ 2 = 0 := le_antisymm (by nlinarith) (sq_nonneg d)
          exact pow_eq_zero_iff (by norm_num) |>.mp h1
        rw [hd0, ← hB0]
        nlinarith [mul_nonneg hA (mul_self_nonneg y)]

/-- Claim C9: `cosineSimilarity` returns exactly 0 whenever the vector
lengths differ or either vector has zero norm (zero sum of squared
components), and otherwise returns a value in `[-1, 1]`.  The function
is total, so it never raises an error. -/
theorem c9_theorem (a b : List ℚ) :
    ((a.length ≠ b.length ∨ dotQ a a = 0 ∨ dotQ b b = 0) →
        cosineSimilarity a b = 0) ∧
      (a.length = b.length → dotQ a a ≠ 0 → dotQ b b ≠ 0 →
        -1 ≤ cosineSimilarity a b ∧ cosineSimilarity a b ≤ 1) := by
  constructor
  · intro h
    by_cases h1 : a.length ≠ b.length ∨ a.length = 0
    · simp only [cosineSimilarity]
      rw [if_pos h1]
    · push_neg at h1
      have hnorm : dotQ a a = 0 ∨ dotQ b b = 0 := by
        rcases h with h | h
        · exact absurd h1.1 h
        · exact h
      simp only [cosineSimilarity]
      rw [if_neg (by push_neg; exact h1), if_pos hnorm]
  · intro hlen hA hB
    have hane : a.length ≠ 0 := by
      intro h0
      rw [List.length_eq_zero] at h0
      subst h0
      exact hA rfl
    have hApos : 0 < dotQ a a := lt_of_le_of_ne (dotQ_self_nonneg a) (Ne.symm hA)
    have hBpos : 0 < dotQ b b := lt_of_le_of_ne (dotQ_self_nonneg b) (Ne.symm hB)
    simp only [cosineSimilarity]
    rw [if_neg (by push_neg; exact ⟨hlen, hane⟩), if_neg (by push_neg; exact ⟨hA, hB⟩)]
    have hARpos : (0 : ℝ) < (dotQ a a : ℚ) := by exact_mod_cast hApos
    have hBRpos : (0 : ℝ) < (dotQ b b : ℚ) := by exact_mod_cast hBpos
    have hsA : (0 : ℝ) < Real.sqrt ((dotQ a a : ℚ) : ℝ) := Real.sqrt_pos.mpr hARpos
    have hsB : (0 : ℝ) < Real.sqrt ((dotQ b b : ℚ) : ℝ) := Real.sqrt_pos.mpr hBRpos
    have hcs : ((dotQ a b : ℚ) : ℝ) ^ 2 ≤ ((dotQ a a : ℚ) : ℝ) * ((dotQ b b : ℚ) : ℝ) := by
      have := dotQ_sq_le a b
      exact_mod_cast this
    have habs : |((dotQ a b : ℚ) : ℝ)| ≤
        Real.sqrt ((dotQ a a : ℚ) : ℝ) * Real.sqrt ((dotQ b b : ℚ) : ℝ) := by
      have h1 : |((dotQ a b : ℚ) : ℝ)| =
          Real.sqrt (((dotQ a b : ℚ) : ℝ) ^ 2) := (Real.sqrt_sq_eq_abs _).symm
      rw [h1, ← Real.sqrt_mul hARpos.le]
      exact Real.sqrt_le_sqrt hcs
    have hdiv : |((dotQ a b : ℚ) : ℝ) /
        (Real.sqrt ((dotQ a a : ℚ) : ℝ) * Real.sqrt ((dotQ b b : ℚ) : ℝ))| ≤ 1 := by
      rw [abs_div]
      rw [abs_of_pos (mul_pos hsA hsB)]
      exact (div_le_one (mul_pos hsA hsB)).mpr habs
    exact abs_le.mp hdiv

/-! ## Token budget of the response builder (claim C3) -/

theorem byteLen_append (a b : String) :
    byteLen (a ++ b) = byteLen a + byteLen b := by
  simp [byteLen, strBytes, String.data_append]

theorem byteLen_le_four_approx (s : String) : byteLen s ≤ 4 * approxTokens s := by
  simp only [approxTokens]
  omega

theorem formatExcerpt_byteLen_pos (c : Chunk) : 1 ≤ byteLen (formatExcerpt c) := by
  simp only [formatExcerpt]
  rw [byteLen_append, byteLen_append, byteLen_append, byteLen_append,
    byteLen_append, byteLen_append, byteLen_append, byteLen_append]
  have h2 : byteLen "\n\n" = 2 := by decide
  omega

theorem approxTokens_formatExcerpt_pos (c : Chunk) :
    1 ≤ approxTokens (formatExcerpt c) := by
  have h := formatExcerpt_byteLen_pos c
  simp only [approxTokens]
  omega

theorem trimExcerpt_is_format (c : Chunk) (mt : Nat) :
    ∃ c2, trimExcerpt c mt = formatExcerpt c2 := by
  simp only [trimExcerpt]
  split <;> split <;> exact ⟨_, rfl⟩

theorem approxTokens_trimExcerpt_pos (c : Chunk) (mt : Nat) :
    1 ≤ approxTokens (trimExcerpt c mt) := by
  obtain ⟨c2, h⟩ := trimExcerpt_is_format c mt
  rw [h]
  exact approxTokens_formatExcerpt_pos c2

theorem buildLoop_bound (mt : Nat) :
    ∀ (scored : List scoredChunk) (used count : Nat) (out : String),
      byteLen out ≤ 4 * used + 35 * (count - 1) →
      (count = 0 → out = "" ∧ used = 0) →
      count ≤ used → used ≤ mt →
      ((buildLoop mt scored used count out).2 = 0 ∧
          (buildLoop mt scored used count out).1 = "") ∨
        (byteLen (buildLoop mt scored used count out).1 ≤
            4 * mt + 35 * (mt - 1) ∧ 1 ≤ (buildLoop mt scored used count out).2)
  | [], used, count, out, hb, h0, hcu, hum => by
      simp only [buildLoop]
      by_cases hc : count = 0
      · exact Or.inl ⟨hc, (h0 hc).1⟩
      · exact Or.inr ⟨by omega, by omega⟩
  | sc :: rest, used, count, out, hb, h0, hcu, hum => by
      simp only [buildLoop]
      have het : ∀ e : String × Nat,
          (e = (formatExcerpt sc.chunk, approxTokens (formatExcerpt sc.chunk)) ∨
           e = (trimExcerpt sc.chunk mt, approxTokens (trimExcerpt sc.chunk mt))) →
          byteLen e.1 ≤ 4 * e.2 ∧ 1 ≤ e.2 := by
        intro e he
        rcases he with rfl | rfl
        · exact ⟨byteLen_le_four_approx _, approxTokens_formatExcerpt_pos _⟩
        · exact ⟨byteLen_le_four_approx _, approxTokens_trimExcerpt_pos _ _⟩
      set et := (if count = 0 ∧ mt < approxTokens (formatExcerpt sc.chunk) then
          (trimExcerpt sc.chunk mt, approxTokens (trimExcerpt sc.chunk mt))
        else (formatExcerpt sc.chunk, approxTokens (formatExcerpt sc.chunk)))
        with hetdef
      have hekey : byteLen et.1 ≤ 4 * et.2 ∧ 1 ≤ et.2 := by
        apply het
        rw [hetdef]
        split
        · exact Or.inr rfl
        · exact Or.inl rfl
      by_cases hover : mt < used + et.2
      · rw [if_pos hover]
        by_cases hc : count = 0
        · exact Or.inl ⟨hc, (h0 hc).1⟩
        · exact Or.inr ⟨by show byteLen out ≤ _; omega, by show 1 ≤ count; omega⟩
      · rw [if_neg hover]
        have hout2 : byteLen (if 0 < count then out ++ sepString ++ et.1 else out ++ et.1) ≤
            4 * (used + et.2) + 35 * ((count + 1) - 1) := by
          by_cases hc : 0 < count
          · rw [if_pos hc, byteLen_append, byteLen_append]
            have hsep : byteLen sepString = 35 := by decide
            omega
          · rw [if_neg hc, byteLen_append]
            have hc0 : count = 0 := by omega
            obtain ⟨ho, hu⟩ := h0 hc0
            subst ho
            have : byteLen "" = 0 := by decide
            omega
        by_cases hdone : mt ≤ used + et.2
        · rw [if_pos hdone]
          refine Or.inr ⟨?_, by show 1 ≤ count + 1; omega⟩
          show byteLen (if 0 < count then out ++ sepString ++ et.1 else out ++ et.1) ≤ _
          omega
        · rw [if_neg hdone]
          exact buildLoop_bound mt rest (used + et.2) (count + 1) _
            (by omega) (by omega) (by omega) (by omega)

theorem buildResponse_bound (scored : List scoredChunk) (mt : Nat) :
    byteLen (buildResponse scored mt) ≤
      max (4 * mt + 35 * (mt - 1)) (byteLen tokenLimitMsg) := by
  simp only [buildResponse]
  have h := buildLoop_bound mt scored 0 0 ""
    (by simp [byteLen, strBytes]) (fun _ => ⟨rfl, rfl⟩) (Nat.le_refl 0) (Nat.zero_le mt)
  rcases h with ⟨h1, _⟩ | ⟨h1, h2⟩
  · rw [if_pos h1]
    omega
  · rw [if_neg (by omega)]
    omega

/-- Claim C3, amended.  The builder charges the budget only for the
excerpts themselves; the 35-byte separators between them are never
counted, so the formatting slack grows with the number of excerpts (9
extra tokens per join, and each excerpt costs at least one token, so at
most `9·(maxTokens−1)` in total) instead of being bounded by twice the
separator cost.  The fixed no-match message (13 tokens) bounds the tiny-
budget cases. -/
theorem c3_amended (f : List scoredChunk → List scoredChunk) (cfg : BM25Config)
    (idx : Index) (q : String) (mt : Int) (hmt : 0 < mt) :
    approxTokens (bm25Search f cfg idx q mt) ≤
      max (mt.toNat + approxTokens sepString * (mt.toNat - 1))
        (approxTokens noRelevantMsg) := by
  simp only [bm25Search]
  have hmt2 : (if mt ≤ 0 then (DefaultMaxTokens : Nat) else mt.toNat) = mt.toNat :=
    if_neg (by omega)
  rw [hmt2]
  have hsep : approxTokens sepString = 9 := by decide
  have hno : approxTokens noRelevantMsg = 13 := by decide
  rw [hsep, hno]
  split
  · rw [hno]
    omega
  · have h := buildResponse_bound (scoreChunks f cfg idx q) mt.toNat
    have htl : byteLen tokenLimitMsg = 44 := by decide
    rw [htl] at h
    simp only [approxTokens]
    omega

/-- Claim C3 amended witness: the bound applied at a concrete call. -/
theorem c3_amended_witness :
    approxTokens (bm25Search sortScoredDesc defaultBM25Config c3Idx "zebra" 40) ≤
      max ((40 : Int).toNat + approxTokens sepString * ((40 : Int).toNat - 1))
        (approxTokens noRelevantMsg) :=
  c3_amended sortScoredDesc defaultBM25Config c3Idx "zebra" 40 (by decide)

/-- Claim C9 witness: a length-mismatched pair maps to exactly 0, and a
concrete non-degenerate pair lands in `[-1, 1]`. -/
theorem c9_witness :
    cosineSimilarity [(1 : ℚ)] [(1 : ℚ), 2] = 0 ∧
      (-1 ≤ cosineSimilarity [(1 : ℚ), 2] [(2 : ℚ), 1] ∧
        cosineSimilarity [(1 : ℚ), 2] [(2 : ℚ), 1] ≤ 1) :=
  ⟨(c9_theorem [(1 : ℚ)] [(1 : ℚ), 2]).1 (Or.inl (by decide)),
   (c9_theorem [(1 : ℚ), 2] [(2 : ℚ), 1]).2 rfl (by norm_num [dotQ]) (by norm_num [dotQ])⟩

/-! ## The sort step of scoreChunks (claims C2, C3) -/

theorem sortOK_nil (f : List scoredChunk → List scoredChunk) (hf : SortOK f) :
    f [] = [] :=
  (hf []).1.eq_nil

theorem sortOK_replicate (f : List scoredChunk → List scoredChunk) (hf : SortOK f)
    (n : Nat) (x : scoredChunk) :
    f (List.replicate n x) = List.replicate n x := by
  have hp := (hf (List.replicate n x)).1
  refine List.eq_replicate_iff.mpr ⟨?_, ?_⟩
  · rw [hp.length_eq, List.length_replicate]
  · intro b hb
    exact List.eq_of_mem_replicate (hp.subset hb)

theorem sortScoredDesc_ok : SortOK sortScoredDesc := fun l =>
  ⟨List.perm_insertionSort relDesc l, List.sorted_insertionSort relDesc l⟩

theorem sortTieRev_ok : SortOK sortTieRev := fun l =>
  ⟨(List.perm_insertionSort relDesc l.reverse).trans (List.reverse_perm l),
   List.sorted_insertionSort relDesc l.reverse⟩

theorem scoreChunks_eq_sort (f : List scoredChunk → List scoredChunk) (hf : SortOK f)
    (cfg : BM25Config) (idx : Index) (q : String) :
    scoreChunks f cfg idx q = f (preScored cfg idx q) := by
  simp only [scoreChunks, preScored]
  split
  · exact (sortOK_nil f hf).symm
  · split
    · exact (sortOK_nil f hf).symm
    · rfl

/-! ## Concrete evaluation of the scorer on uniform one-term indexes -/

theorem calcTF_one : calcTF 1 1 1 defaultBM25Config.k1 defaultBM25Config.b = 1 := by
  simp only [calcTF, defaultBM25Config]
  rw [if_neg (by norm_num)]
  norm_num

theorem calcIDF_kk_pos (k : Nat) (hk : 0 < k) : 0 < calcIDF (k : ℝ) (k : ℝ) := by
  simp only [calcIDF]
  apply Real.log_pos
  have he : ((k : ℝ) - (k : ℝ) + 0.5) = 0.5 := by ring
  rw [he]
  have hpos : (0 : ℝ) < 0.5 / ((k : ℝ) + 0.5) := by positivity
  linarith

theorem uScore_pos (k : Nat) (hk : 0 < k) : 0 < uScore k := by
  simp only [uScore, calcTF_one]
  rw [zero_add, mul_one, mul_one]
  exact calcIDF_kk_pos k hk

theorem scoreChunk_uni (c : Chunk) (k : Nat) (ht : c.terms = ["zebra"])
    (hcf : c.hasCode = false) (hk : 0 < k) :
    scoreChunk defaultBM25Config c (buildTF ["zebra"]) [("zebra", k)] (k : ℝ) 1 =
      uScore k := by
  simp only [scoreChunk, ht, hcf]
  rw [if_neg (by simp)]
  rw [show buildTF ["zebra"] = [("zebra", 1)] from rfl]
  simp only [List.foldl]
  rw [show lookupNat [("zebra", k)] "zebra" = k from rfl]
  rw [if_neg (by omega)]
  rw [show lookupNat [("zebra", 1)] "zebra" = 1 from rfl]
  norm_num [uScore]

theorem foldl_terms_one :
    ∀ (cs : List Chunk), (∀ c ∈ cs, c.terms = ["zebra"]) → ∀ (a : ℝ),
      cs.foldl (fun b c => b + (c.terms.length : ℝ)) a = a + cs.length
  | [], _, a => by simp
  | c :: cs, h, a => by
      simp only [List.foldl_cons]
      rw [foldl_terms_one cs (fun d hd => h d (List.mem_cons_of_mem c hd))
        (a + (c.terms.length : ℝ))]
      rw [h c (List.mem_cons_self c cs)]
      simp only [List.length_cons, List.length_nil]
      push_cast
      ring

theorem filterMap_uni (k : Nat) (hk : 0 < k) :
    ∀ (cs : List Chunk), (∀ c ∈ cs, c.terms = ["zebra"] ∧ c.hasCode = false) →
      cs.filterMap (fun c =>
          if 0 < scoreChunk defaultBM25Config c (buildTF ["zebra"]) [("zebra", k)] (k : ℝ) 1
          then some (⟨c, scoreChunk defaultBM25Config c (buildTF ["zebra"])
            [("zebra", k)] (k : ℝ) 1⟩ : scoredChunk)
          else none) =
        cs.map (fun c => (⟨c, uScore k⟩ : scoredChunk))
  | [], _ => rfl
  | c :: cs, h => by
      have hs := scoreChunk_uni c k (h c (List.mem_cons_self c cs)).1
        (h c (List.mem_cons_self c cs)).2 hk
      have hfc : (if 0 < scoreChunk defaultBM25Config c (buildTF ["zebra"])
            [("zebra", k)] (k : ℝ) 1
          then some (⟨c, scoreChunk defaultBM25Config c (buildTF ["zebra"])
            [("zebra", k)] (k : ℝ) 1⟩ : scoredChunk)
          else none) = some ⟨c, uScore k⟩ := by
        rw [hs]
        exact if_pos (uScore_pos k hk)
      rw [@List.filterMap_cons_some Chunk scoredChunk
        (fun c =>
          if 0 < scoreChunk defaultBM25Config c (buildTF ["zebra"]) [("zebra", k)] (k : ℝ) 1
          then some (⟨c, scoreChunk defaultBM25Config c (buildTF ["zebra"])
            [("zebra", k)] (k : ℝ) 1⟩ : scoredChunk)
          else none) c cs ⟨c, uScore k⟩ hfc, List.map_cons,
        filterMap_uni k hk cs (fun d hd => h d (List.mem_cons_of_mem c hd))]

theorem preScored_uniform (cs : List Chunk) (hk : 0 < cs.length)
    (h : ∀ c ∈ cs, c.terms = ["zebra"] ∧ c.hasCode = false) :
    preScored defaultBM25Config (uniIdx cs "zebra") "zebra" =
      cs.map (fun c => ⟨c, uScore cs.length⟩) := by
  have hq : NormalizeTerms "zebra" = ["zebra"] := by decide
  simp only [preScored, uniIdx, hq]
  rw [if_neg (by decide)]
  rw [if_neg (show ¬cs.length = 0 by omega)]
  have hav : cs.foldl (fun b c => b + (c.terms.length : ℝ)) 0 / (cs.length : ℝ) = 1 := by
    rw [foldl_terms_one cs (fun c hc => (h c hc).1) 0, zero_add]
    exact div_self (Nat.cast_ne_zero.mpr (by omega))
  rw [hav]
  exact filterMap_uni cs.length hk cs h

theorem sortScoredDesc_pair_tie (a b : scoredChunk) (hab : a.score = b.score) :
    sortScoredDesc [a, b] = [a, b] := by
  simp only [sortScoredDesc, List.insertionSort, List.orderedInsert]
  rw [if_pos (show relDesc a b from hab.ge)]

theorem sortTieRev_pair_tie (a b : scoredChunk) (hab : a.score = b.score) :
    sortTieRev [a, b] = [b, a] := by
  show sortScoredDesc [a, b].reverse = [b, a]
  rw [show [a, b].reverse = [b, a] from rfl]
  exact sortScoredDesc_pair_tie b a hab.symm

theorem preScored_c2 : preScored defaultBM25Config c2Idx "zebra" =
    [⟨c2ChunkA, uScore 2⟩, ⟨c2ChunkB, uScore 2⟩] := by
  have h := preScored_uniform [c2ChunkA, c2ChunkB] (by decide) (by decide)
  rw [show uniIdx [c2ChunkA, c2ChunkB] "zebra" = c2Idx from rfl] at h
  rw [h]
  rfl

/-- Claim C2, amended.  `sort.Slice` guarantees a descending-by-score
permutation but not stability, so what holds for every conforming sort
implementation is: the scored list is sorted descending and is a
permutation of the positively-scoring chunks in parse order.  The
tie-breaking by insertion order (and hence bytewise determinism across
conforming implementations) is not guaranteed. -/
theorem c2_amended (f : List scoredChunk → List scoredChunk) (hf : SortOK f)
    (cfg : BM25Config) (idx : Index) (q : String) :
    (scoreChunks f cfg idx q).Sorted relDesc ∧
      (scoreChunks f cfg idx q).Perm (preScored cfg idx q) := by
  rw [scoreChunks_eq_sort f hf]
  exact ⟨(hf _).2, (hf _).1⟩

/-- Claim C2 amended witness: the amended property at the stable
reference sort on the two-chunk tie index. -/
theorem c2_amended_witness :
    (scoreChunks sortScoredDesc defaultBM25Config c2Idx "zebra").Sorted relDesc ∧
      (scoreChunks sortScoredDesc defaultBM25Config c2Idx "zebra").Perm
        (preScored defaultBM25Config c2Idx "zebra") :=
  c2_amended sortScoredDesc sortScoredDesc_ok defaultBM25Config c2Idx "zebra"

/-- Claim C2 as stated is false: tie-breaking by insertion order is not
guaranteed by the unstable `sort.Slice` contract.  Two contract-conforming
sort implementations (stable insertion sort, and the same sort run on the
reversed input) give different chunk orders — hence different response
bytes — on an index with two score-tied chunks. -/
theorem c2_counterexample :
    ¬ (∀ (f g : List scoredChunk → List scoredChunk), SortOK f → SortOK g →
        ∀ (idx : Index) (q : String),
          scoreChunks f defaultBM25Config idx q =
            scoreChunks g defaultBM25Config idx q) := by
  intro hclaim
  have h := hclaim sortScoredDesc sortTieRev sortScoredDesc_ok sortTieRev_ok c2Idx "zebra"
  rw [scoreChunks_eq_sort sortScoredDesc sortScoredDesc_ok,
    scoreChunks_eq_sort sortTieRev sortTieRev_ok, preScored_c2,
    sortScoredDesc_pair_tie ⟨c2ChunkA, uScore 2⟩ ⟨c2ChunkB, uScore 2⟩ rfl,
    sortTieRev_pair_tie ⟨c2ChunkA, uScore 2⟩ ⟨c2ChunkB, uScore 2⟩ rfl] at h
  have h2 := congrArg (List.map (fun s : scoredChunk => s.chunk.chunkID)) h
  simp only [List.map_cons, List.map_nil] at h2
  exact absurd h2 (by decide)

theorem preScored_c3 : preScored defaultBM25Config c3Idx "zebra" =
    List.replicate 5 ⟨c3Chunk, uScore 5⟩ := by
  have h := preScored_uniform (List.replicate 5 c3Chunk) (by decide)
    (fun c hc => by rw [List.eq_of_mem_replicate hc]; exact ⟨rfl, rfl⟩)
  rw [show uniIdx (List.replicate 5 c3Chunk) "zebra" = c3Idx from rfl] at h
  rw [h, List.map_replicate]
  rfl

set_option maxRecDepth 40000 in
/-- Claim C3 as stated is false: the separators between excerpts are
never charged against the budget.  On an index of five identical
8-token chunks with maxTokens = 40 the response is five excerpts plus
four 9-token separators — 72 tokens, exceeding 40 + 2·9 = 58. -/
theorem c3_counterexample :
    ¬ (∀ (f : List scoredChunk → List scoredChunk), SortOK f →
        ∀ (idx : Index) (q : String) (mt : Int), 0 < mt →
          approxTokens (bm25Search f defaultBM25Config idx q mt) ≤
            mt.toNat + 2 * approxTokens sepString) := by
  intro hclaim
  have h5 := hclaim sortScoredDesc sortScoredDesc_ok c3Idx "zebra" 40 (by norm_num)
  have hsc : scoreChunks sortScoredDesc defaultBM25Config c3Idx "zebra" =
      List.replicate 5 ⟨c3Chunk, uScore 5⟩ := by
    rw [scoreChunks_eq_sort sortScoredDesc sortScoredDesc_ok, preScored_c3,
      sortOK_replicate sortScoredDesc sortScoredDesc_ok 5 _]
  simp only [bm25Search, hsc] at h5
  rw [if_neg (show ¬((40 : Int) ≤ 0) by decide)] at h5
  rw [if_neg (show ¬((List.replicate 5
      (⟨c3Chunk, uScore 5⟩ : scoredChunk)).isEmpty = true) by decide)] at h5
  rw [show approxTokens (buildResponse
      (List.replicate 5 (⟨c3Chunk, uScore 5⟩ : scoredChunk)) (Int.toNat 40)) = 72
    from by decide] at h5
  rw [show approxTokens sepString = 9 from by decide] at h5
  omega

/-- Claim C4: the trim rule and the too-small-budget message.  First
conjunct: `trimExcerpt` keeps exactly `max (len − 4·excess) (min 80 len)`
characters of body — i.e. it removes `excess·4` trailing characters but
never goes below 80 characters (or the whole text when shorter) — and
appends a newline plus ellipsis exactly when something was removed.
Second conjunct: when even the (possibly trimmed) first excerpt exceeds
the budget, the response is exactly the fixed too-small message. -/
theorem c4_theorem :
    (∀ (c : Chunk) (mt : Nat),
        trimExcerpt c mt =
          if max (c.text.data.length - (approxTokens (formatExcerpt c) - mt) * 4)
              (min 80 c.text.data.length) < c.text.data.length then
            formatExcerpt { c with text :=
              ⟨c.text.data.take (max (c.text.data.length -
                  (approxTokens (formatExcerpt c) - mt) * 4)
                (min 80 c.text.data.length))⟩ ++ "\n…" }
          else formatExcerpt c) ∧
      (∀ (sc : scoredChunk) (rest : List scoredChunk) (mt : Nat),
        mt < approxTokens (formatExcerpt sc.chunk) →
        mt < approxTokens (trimExcerpt sc.chunk mt) →
        buildResponse (sc :: rest) mt = tokenLimitMsg) := by
  constructor
  · intro c mt
    simp only [trimExcerpt]
    rw [show (if c.text.data.length - (approxTokens (formatExcerpt c) - mt) * 4 < 80 then
          min 80 c.text.data.length
        else c.text.data.length - (approxTokens (formatExcerpt c) - mt) * 4) =
          max (c.text.data.length - (approxTokens (formatExcerpt c) - mt) * 4)
            (min 80 c.text.data.length) from by split <;> omega]
  · intro sc rest mt hfmt htrim
    simp only [buildResponse, buildLoop]
    rw [if_pos (show True ∧ mt < approxTokens (formatExcerpt sc.chunk) from
      ⟨trivial, hfmt⟩)]
    dsimp only
    rw [if_pos (show mt < 0 + approxTokens (trimExcerpt sc.chunk mt) by omega)]
    rfl

/-- Claim C4 witness: a one-chunk index under budget 1 — the excerpt
cannot be trimmed below its 24-byte frame, so the fixed message is
returned. -/
theorem c4_witness :
    buildResponse [⟨c3Chunk, uScore 1⟩] 1 = tokenLimitMsg :=
  c4_theorem.2 ⟨c3Chunk, uScore 1⟩ [] 1 (by decide) (by decide)

/-! ## Hybrid fallback (claim C6) -/

theorem bm25Search_norm (f : List scoredChunk → List scoredChunk) (cfg : BM25Config)
    (idx : Index) (q : String) (mt : Int) :
    bm25Search f cfg idx q (if mt ≤ 0 then (DefaultMaxTokens : Int) else mt) =
      bm25Search f cfg idx q mt := by
  by_cases h : mt ≤ 0
  · rw [if_pos h]
    simp only [bm25Search]
    rw [show (if (DefaultMaxTokens : Int) ≤ 0 then DefaultMaxTokens
        else (DefaultMaxTokens : Int).toNat) = DefaultMaxTokens from by decide]
    rw [if_pos h]
  · rw [if_neg h]

/-- Claim C6: whenever the readiness tracker reports the index not
ready, or no chunk carries an embedding, or the query embedding fails,
the hybrid searcher returns exactly the BM25-only searcher's response
for the same arguments. -/
theorem c6_theorem (sortf : List scoredChunk → List scoredChunk)
    (sortPairs : List (String × ℝ) → List (String × ℝ)) (cfg : BM25Config)
    (fusionMethod : String) (bw ew : ℝ) (rrfK : Nat) (isReady : String → Bool)
    (embed : String → Except Unit (List ℚ)) (idx : Index) (q : String) (mt : Int)
    (h : isReady idx.docID = false ∨
      idx.chunks.any (fun c => c.embedding.isSome) = false ∨
      ∃ e, embed q = .error e) :
    hybridSearch sortf sortPairs cfg fusionMethod bw ew rrfK isReady embed idx q mt =
      bm25Search sortf cfg idx q mt := by
  simp only [hybridSearch]
  rcases h with h1 | h2 | ⟨e, he⟩
  · rw [if_pos (by simp [h1])]
    exact bm25Search_norm sortf cfg idx q mt
  · by_cases hr : isReady idx.docID = true
    · rw [if_neg (by simp [hr]), if_pos (by simp [h2])]
      exact bm25Search_norm sortf cfg idx q mt
    · rw [if_pos (by simp [hr])]
      exact bm25Search_norm sortf cfg idx q mt
  · by_cases hr : isReady idx.docID = true
    · by_cases ha : idx.chunks.any (fun c => c.embedding.isSome) = true
      · rw [if_neg (by simp [hr]), if_neg (by simp [ha]), he]
        exact bm25Search_norm sortf cfg idx q mt
      · rw [if_neg (by simp [hr]), if_pos (by simp [ha])]
        exact bm25Search_norm sortf cfg idx q mt
    · rw [if_pos (by simp [hr])]
      exact bm25Search_norm sortf cfg idx q mt

/-- Claim C6 witness: a not-ready tracker on the one-chunk index. -/
theorem c6_witness :
    hybridSearch sortScoredDesc id defaultBM25Config FusionMethodRRF 0.5 0.5
        DefaultRRFK (fun _ => false) (fun _ => .error ()) c4Idx "zebra" 500 =
      bm25Search sortScoredDesc defaultBM25Config c4Idx "zebra" 500 :=
  c6_theorem sortScoredDesc id defaultBM25Config FusionMethodRRF 0.5 0.5
    DefaultRRFK (fun _ => false) (fun _ => .error ()) c4Idx "zebra" 500 (Or.inl rfl)

/-! ## Indexer.Load cache policy (claim C7) -/

/-- Claim C7, amended.  `Load` returns `FromCache=true` exactly when the
memory tier holds the DocID, or the disk tier holds a record whose
schema version equals the current `CacheVersion` AND whose stored path
and content hash match — the claim's version-free disk condition misses
the version gate applied by `LoadFromDisk` before the path/hash check. -/
theorem c7_amended (env : LoadEnv) (path : String) (hne : ¬path = "")
    (content : String) (hrf : env.readFile path = some content) :
    ∃ out : LoadOutcome, Load env path = .ok out ∧
      (out.result.fromCache = true ↔
        (env.mem (DocIDForPath env.abs path)).isSome = true ∨
        (∃ rec : Index, env.disk (DocIDForPath env.abs path) = some rec ∧
          rec.version = CacheVersion ∧ rec.path = path ∧
          rec.fileHash = hashHex content)) := by
  simp only [Load, LoadFromDisk]
  rw [if_neg hne]
  cases hm : env.mem (DocIDForPath env.abs path) with
  | some cached =>
      exact ⟨_, rfl, ⟨fun _ => Or.inl rfl, fun _ => rfl⟩⟩
  | none =>
      rw [hrf]
      cases hd : env.disk (DocIDForPath env.abs path) with
      | none =>
          refine ⟨_, rfl, ⟨fun hfc => Bool.noConfusion hfc, fun hor => ?_⟩⟩
          rcases hor with hs | ⟨rec, hrec, _⟩
          · exact Bool.noConfusion hs
          · exact Option.noConfusion hrec
      | some rec =>
          dsimp only
          by_cases hv : rec.version = CacheVersion
          · rw [if_neg (by simpa using hv)]
            dsimp only
            by_cases hph : rec.path = path ∧ rec.fileHash = hashHex content
            · rw [if_pos hph]
              dsimp only
              exact ⟨_, rfl, ⟨fun _ => Or.inr ⟨rec, rfl, hv, hph.1, hph.2⟩, fun _ => rfl⟩⟩
            · rw [if_neg hph]
              dsimp only
              refine ⟨_, rfl, ⟨fun hfc => Bool.noConfusion hfc, fun hor => ?_⟩⟩
              rcases hor with hs | ⟨rec2, hrec2, _, hp2, hh2⟩
              · exact Bool.noConfusion hs
              · cases Option.some.inj hrec2
                exact absurd ⟨hp2, hh2⟩ hph
          · rw [if_pos (by simpa using hv)]
            dsimp only
            refine ⟨_, rfl, ⟨fun hfc => Bool.noConfusion hfc, fun hor => ?_⟩⟩
            rcases hor with hs | ⟨rec2, hrec2, hv2, _, _⟩
            · exact Bool.noConfusion hs
            · cases Option.some.inj hrec2
              exact absurd hv2 hv

set_option maxRecDepth 40000 in
/-- Claim C7 amended witness: in the counterexample environment (empty
memory, stale-version disk record with matching path and hash, readable
file) the amended characterization holds concretely. -/
theorem c7_amended_witness :
    ∃ out : LoadOutcome, Load c7Env "a.md" = .ok out ∧
      (out.result.fromCache = true ↔
        (c7Env.mem (DocIDForPath c7Env.abs "a.md")).isSome = true ∨
        (∃ rec : Index, c7Env.disk (DocIDForPath c7Env.abs "a.md") = some rec ∧
          rec.version = CacheVersion ∧ rec.path = "a.md" ∧
          rec.fileHash = hashHex "x")) :=
  c7_amended c7Env "a.md" (by decide) "x" (by decide)

set_option maxRecDepth 100000 in
/-- Claim C7 as stated is false: a disk record whose stored path and
content hash both match is still not served from the cache when its
schema version is stale — `LoadFromDisk` rejects it first, so `Load`
re-parses and returns `FromCache=false` where the claim demands `true`. -/
theorem c7_counterexample :
    ¬ (∀ (env : LoadEnv) (path content : String) (out : LoadOutcome),
        env.readFile path = some content → Load env path = .ok out →
        (out.result.fromCache = true ↔
          (env.mem (DocIDForPath env.abs path)).isSome = true ∨
          (∃ rec : Index, env.disk (DocIDForPath env.abs path) = some rec ∧
            rec.path = path ∧ rec.fileHash = hashHex content))) := by
  intro hclaim
  have hcomp : (Load c7Env "a.md").toOption.map (fun o => o.result.fromCache) =
      some false := by decide
  cases hld : Load c7Env "a.md" with
  | error e =>
      rw [hld] at hcomp
      exact Option.noConfusion hcomp
  | ok out =>
      rw [hld] at hcomp
      have hfc : out.result.fromCache = false := Option.some.inj hcomp
      have hiff := hclaim c7Env "a.md" "x" out (by decide) hld
      have hdisk : c7Env.disk (DocIDForPath c7Env.abs "a.md") = some c7Rec := by decide
      have htrue : out.result.fromCache = true :=
        hiff.mpr (Or.inr ⟨c7Rec, hdisk, rfl, rfl⟩)
      rw [hfc] at htrue
      exact Bool.noConfusion htrue

/-! ## QueryAll filtering (claim C10) -/

theorem queryAllLoop_filter (search : Index → String → Int → String) (env : QueryEnv)
    (prompt : String) (mts : Int) :
    ∀ (ds : List String) (results : List String) (used : Int),
      (∀ r ∈ results, r ≠ "" ∧ containsSub r "No relevant excerpts" = false) →
      ∀ r ∈ (queryAllLoop search env prompt mts ds results used).1,
        r ≠ "" ∧ containsSub r "No relevant excerpts" = false
  | [], results, used, hres => hres
  | d :: rest, results, used, hres => by
      simp only [queryAllLoop]
      cases hg : env.get d with
      | none =>
          exact queryAllLoop_filter search env prompt mts rest results used hres
      | some index =>
          dsimp only
          by_cases hrem : mts - used ≤ 0
          · rw [if_pos hrem]
            exact hres
          · rw [if_neg hrem]
            by_cases hok : search index prompt (mts - used) ≠ "" ∧
                containsSub (search index prompt (mts - used)) "No relevant excerpts" = false
            · rw [if_pos hok]
              refine queryAllLoop_filter search env prompt mts rest _ _ ?_
              intro r hr
              rcases List.mem_append.mp hr with h1 | h2
              · exact hres r h1
              · rw [List.mem_singleton.mp h2]
                exact hok
            · rw [if_neg hok]
              exact queryAllLoop_filter search env prompt mts rest results used hres

theorem preScored_c10 : preScored defaultBM25Config c10Idx "zebra" =
    [⟨c10Chunk, uScore 1⟩] := by
  have h := preScored_uniform [c10Chunk] (by decide) (by decide)
  rw [show uniIdx [c10Chunk] "zebra" = c10Idx from rfl] at h
  rw [h]
  rfl

theorem c10search_eval (mt : Int) (h14 : (14 : Int) ≤ mt) :
    c10search c10Idx "zebra" mt = formatExcerpt c10Chunk := by
  show bm25Search sortScoredDesc defaultBM25Config c10Idx "zebra" mt = _
  simp only [bm25Search]
  rw [scoreChunks_eq_sort sortScoredDesc sortScoredDesc_ok, preScored_c10]
  rw [show sortScoredDesc [(⟨c10Chunk, uScore 1⟩ : scoredChunk)] =
    [⟨c10Chunk, uScore 1⟩] from rfl]
  rw [if_neg (show ¬(mt ≤ 0) by omega), if_neg (by decide)]
  have htok : approxTokens (formatExcerpt c10Chunk) = 14 := by decide
  simp only [buildResponse, buildLoop]
  rw [if_neg (show ¬(True ∧ mt.toNat < approxTokens (formatExcerpt c10Chunk)) by
    intro hc
    omega)]
  dsimp only
  rw [if_neg (show ¬(mt.toNat < 0 + approxTokens (formatExcerpt c10Chunk)) by omega)]
  by_cases hm15 : mt.toNat ≤ 0 + approxTokens (formatExcerpt c10Chunk)
  · rw [if_pos hm15]
    decide
  · rw [if_neg hm15]
    simp only [buildLoop]
    decide

theorem c10Query :
    QueryAll c10search c10Env "zebra" 500 = .ok noRelevantAllMsg := by
  simp only [QueryAll]
  rw [if_neg (by decide), if_neg (by decide)]
  rw [show c10Env.docIDs = ["d"] from rfl]
  simp only [queryAllLoop]
  rw [show c10Env.get "d" = some c10Idx from rfl]
  dsimp only
  rw [if_neg (show ¬((500 : Int) - 0 ≤ 0) by decide)]
  rw [c10search_eval ((500 : Int) - 0) (by decide)]
  rw [if_neg (show ¬(formatExcerpt c10Chunk ≠ "" ∧
      containsSub (formatExcerpt c10Chunk) "No relevant excerpts" = false) by decide)]
  rfl

/-- Claim C10: the document loop of `QueryAll` keeps a per-document
response only if it is non-empty and does not contain the substring
"No relevant excerpts" (first conjunct: every kept result satisfies the
filter, for every searcher, environment and budget); consequently a
document whose genuinely matching excerpt text itself contains that
substring is silently dropped — concretely, the one-document index whose
only chunk matches the query "zebra" yields a non-empty BM25 excerpt
containing the substring, and `QueryAll` returns the global no-results
message instead of that excerpt. -/
theorem c10_theorem :
    (∀ (search : Index → String → Int → String) (env : QueryEnv) (prompt : String)
        (mts : Int) (ds : List String) (results : List String) (used : Int),
        (∀ r ∈ results, r ≠ "" ∧ containsSub r "No relevant excerpts" = false) →
        ∀ r ∈ (queryAllLoop search env prompt mts ds results used).1,
          r ≠ "" ∧ containsSub r "No relevant excerpts" = false) ∧
      (QueryAll c10search c10Env "zebra" 500 = .ok noRelevantAllMsg ∧
        c10search c10Idx "zebra" 500 = formatExcerpt c10Chunk ∧
        formatExcerpt c10Chunk ≠ "" ∧
        containsSub (formatExcerpt c10Chunk) "No relevant excerpts" = true) :=
  ⟨fun search env prompt mts ds results used h =>
      queryAllLoop_filter search env prompt mts ds results used h,
   c10Query, c10search_eval 500 (by decide), by decide, by decide⟩

/-- Claim C10 witness: the filter property applied to a concrete loop
run that keeps one response. -/
theorem c10_witness :
    "hit" ≠ "" ∧ containsSub "hit" "No relevant excerpts" = false :=
  c10_theorem.1 (fun _ _ _ => "hit") ⟨["d"], fun _ => some c10Idx⟩ "zebra" 500
    ["d"] [] 0 (fun r hr => absurd hr (List.not_mem_nil r)) "hit" (by decide)

end MdIndex
